import Mathlib

/-!
Verification of the Xylella pre-registo → DGAV conversion engine.

The Python source (`src/processor.py`, `src/app.py`) is shallowly embedded:
pure string/label manipulation becomes Lean string functions, the openpyxl
worksheet becomes an explicit `Ws` structure (a list of rows of cells with
value, fill, style, hyperlink and comment), pandas' `dropna` and `iterrows`
become list filters and folds, and the two fatal failure modes become an
`Except` result.  Unicode accent folding (`unicodedata.normalize("NFD")`
followed by dropping combining marks) is modelled by a finite character
table covering the Latin alphabet used by the repository's labels.
-/

namespace Xylella

/-! ### Python-style character classes -/

/-- Whitespace characters recognised by Python's `str.split()` / `str.strip()`
(the subset relevant to spreadsheet labels, including the non-breaking space). -/
def isPyWs (c : Char) : Bool :=
  c == ' ' || c == '\t' || c == '\n' || c == '\r' || c == '\x0b' || c == '\x0c' || c == '\u00A0'

/-- Finite model of NFD decomposition + removal of combining marks: each
precomposed accented letter maps to its base letter.  Covers the alphabet of
the repository's column labels (Portuguese). -/
def accentTable : List (Char × Char) :=
  [('á','a'),('à','a'),('â','a'),('ã','a'),('ä','a'),
   ('Á','A'),('À','A'),('Â','A'),('Ã','A'),('Ä','A'),
   ('é','e'),('è','e'),('ê','e'),('ë','e'),
   ('É','E'),('È','E'),('Ê','E'),('Ë','E'),
   ('í','i'),('ì','i'),('î','i'),('ï','i'),
   ('Í','I'),('Ì','I'),('Î','I'),('Ï','I'),
   ('ó','o'),('ò','o'),('ô','o'),('õ','o'),('ö','o'),
   ('Ó','O'),('Ò','O'),('Ô','O'),('Õ','O'),('Ö','O'),
   ('ú','u'),('ù','u'),('û','u'),('ü','u'),
   ('Ú','U'),('Ù','U'),('Û','U'),('Ü','U'),
   ('ç','c'),('Ç','C'),('ñ','n'),('Ñ','N')]

/-- `unicodedata.normalize("NFD", s)` followed by dropping category-Mn marks,
per character (identity outside the table). -/
def deAccent (c : Char) : Char := (accentTable.lookup c).getD c

/-- `s.replace(" ", " ")`, per character. -/
def replNbsp (c : Char) : Char := if c == '\u00A0' then ' ' else c

/-- `s.replace("_", " ").replace("-", " ")`, per character. -/
def replUH (c : Char) : Char := if c == '_' || c == '-' then ' ' else c

/-- Finite model of `str.lower()`: the uppercase→lowercase table for the
ASCII alphabet used by the repository's labels (accented uppercase letters
have already been folded to ASCII by `deAccent` at the point `lower()`
runs). -/
def lowerTable : List (Char × Char) :=
  [('A','a'),('B','b'),('C','c'),('D','d'),('E','e'),('F','f'),('G','g'),
   ('H','h'),('I','i'),('J','j'),('K','k'),('L','l'),('M','m'),('N','n'),
   ('O','o'),('P','p'),('Q','q'),('R','r'),('S','s'),('T','t'),('U','u'),
   ('V','v'),('W','w'),('X','x'),('Y','y'),('Z','z')]

/-- `s.lower()`, per character. -/
def pyLower (c : Char) : Char := (lowerTable.lookup c).getD c

/-- The per-character effect of `_norm`'s four character-level stages, in
source order: NBSP→space, accent folding, `_`/`-`→space, lowercasing. -/
def charStage (c : Char) : Char := pyLower (replUH (deAccent (replNbsp c)))

/-! ### Python `str.split()` / `str.strip()` on character lists -/

/-- Accumulator for `pyWords`: `acc` holds the (reversed) word being read. -/
def pyWordsAux : List Char → List Char → List (List Char)
  | [], acc => if acc.isEmpty then [] else [acc.reverse]
  | c :: l, acc =>
    if isPyWs c then
      (if acc.isEmpty then pyWordsAux l [] else acc.reverse :: pyWordsAux l [])
    else pyWordsAux l (c :: acc)

/-- Python `s.split()`: the maximal whitespace-free runs of `l`, in order. -/
def pyWords (l : List Char) : List (List Char) := pyWordsAux l []

/-- Python `s.strip()` on a character list. -/
def pyStrip (l : List Char) : List Char :=
  ((l.dropWhile isPyWs).reverse.dropWhile isPyWs).reverse

/-- Python `" ".join(words)` on character lists. -/
def joinWords : List (List Char) → List Char
  | [] => []
  | [w] => w
  | w :: ws => w ++ ' ' :: joinWords ws

/-! ### `_norm` (processor.py) -/

/-- `_norm(text)`: tolerant label normalisation.  `None` maps to `""`;
otherwise: NBSP→space, strip accents, `_`/`-`→space, lowercase,
collapse whitespace runs (`" ".join(s.split())`), strip. -/
def _norm (text : Option String) : String :=
  match text with
  | none => ""
  | some s =>
    let l := s.data
    let l := l.map replNbsp
    let l := l.map deAccent
    let l := l.map replUH
    let l := l.map pyLower
    (pyStrip (joinWords (pyWords l))).asString

/-- One atomic difference between two labels that `_norm` is expected to
erase: a character replaced by its lowercase form, a character replaced by
its accent-folded form, an underscore or hyphen written as a space, a
whitespace character written as a plain space, a duplicated whitespace
character, or extra leading/trailing whitespace. -/
inductive LabelStep : List Char → List Char → Prop where
  | lowerChar (l₁ : List Char) (c : Char) (l₂ : List Char) :
      LabelStep (l₁ ++ c :: l₂) (l₁ ++ pyLower c :: l₂)
  | accentChar (l₁ : List Char) (c : Char) (l₂ : List Char) :
      LabelStep (l₁ ++ c :: l₂) (l₁ ++ deAccent c :: l₂)
  | underscore (l₁ l₂ : List Char) :
      LabelStep (l₁ ++ '_' :: l₂) (l₁ ++ ' ' :: l₂)
  | hyphen (l₁ l₂ : List Char) :
      LabelStep (l₁ ++ '-' :: l₂) (l₁ ++ ' ' :: l₂)
  | wsChar (l₁ : List Char) (c : Char) (l₂ : List Char) :
      isPyWs c = true → LabelStep (l₁ ++ c :: l₂) (l₁ ++ ' ' :: l₂)
  | wsDup (l₁ : List Char) (c : Char) (l₂ : List Char) :
      isPyWs c = true → LabelStep (l₁ ++ c :: l₂) (l₁ ++ c :: c :: l₂)
  | wsLead (c : Char) (l : List Char) :
      isPyWs c = true → LabelStep l (c :: l)
  | wsTrail (l : List Char) (c : Char) :
      isPyWs c = true → LabelStep l (l ++ [c])

/-- Two labels differ only by case, accents, underscores/hyphens versus
spaces, or extra whitespace: the equivalence closure of `LabelStep`. -/
inductive LabelVar : List Char → List Char → Prop where
  | refl (l : List Char) : LabelVar l l
  | symm {a b : List Char} : LabelVar a b → LabelVar b a
  | trans {a b c : List Char} : LabelVar a b → LabelVar b c → LabelVar a c
  | step {a b : List Char} : LabelStep a b → LabelVar a b

/-! ### Cell values -/

/-- Closed variant type for the dynamically typed spreadsheet cell values the
pipeline actually meets: Python `None`, strings, float NaN, integers,
datetimes (with a time-of-day part) and plain dates. -/
inductive Cell where
  | nullc
  | str (s : String)
  | nanc
  | int (n : Int)
  | datetime (d t : Nat)
  | dateOnly (d : Nat)
deriving DecidableEq, Repr

/-- Python `str(value)` (the renderings of non-string values are abstract but
fixed; the claims never depend on their exact spelling). -/
def strOfCell : Cell → String
  | .nullc => "None"
  | .str s => s
  | .nanc => "nan"
  | .int n => toString n
  | .datetime d t => toString d ++ " " ++ toString t
  | .dateOnly d => toString d

/-- `_norm` applied directly to a raw cell value: the `None` check in `_norm`
fires before `str()` is applied. -/
def _normCell (c : Cell) : String :=
  match c with
  | .nullc => ""
  | c => _norm (some (strOfCell c))

/-- Python truthiness of a cell value (`if v:`). -/
def cellTruthy : Cell → Bool
  | .nullc => false
  | .str s => s ≠ ""
  | .nanc => true
  | .int n => n ≠ 0
  | .datetime _ _ => true
  | .dateOnly _ => true

/-- pandas missing-value test (`NaN`/`None`), as used by `dropna`. -/
def isNa : Cell → Bool
  | .nullc => true
  | .nanc => true
  | _ => false

/-- The emptiness test `v in (None, "")` used by both the required-field
validator and the downstream analysis. -/
def isEmptyCellP (c : Cell) : Bool :=
  c == Cell.nullc || c == Cell.str ""

/-- Per-value coercion in the write loop: float NaN becomes `None`, a value
with a `date` component is truncated to its date. -/
def transformVal : Cell → Cell
  | .nanc => .nullc
  | .datetime d _ => .dateOnly d
  | c => c

/-! ### Insertion-ordered string dictionaries (Python `dict`) -/

/-- Insert with overwrite, keeping the original insertion position. -/
def dinsert (l : List (String × α)) (k : String) (v : α) : List (String × α) :=
  if l.any (fun p => p.1 == k) then l.map (fun p => if p.1 == k then (k, v) else p)
  else l ++ [(k, v)]

/-- Python `dict.get`. -/
def dget (l : List (String × α)) (k : String) : Option α :=
  (l.find? (fun p => p.1 == k)).map (fun p => p.2)

/-! ### Worksheet model (openpyxl) -/

/-- One spreadsheet cell: its value plus the formatting metadata a template
row carries (fill colour, style token, hyperlink, comment). -/
structure CellData where
  value : Cell
  fill : Option String
  style : Option String
  hyperlink : Option String
  comment : Option String
deriving DecidableEq, Repr

/-- A freshly created (never written) cell: empty value, default formatting. -/
def blankCell : CellData := ⟨Cell.nullc, none, none, none, none⟩

/-- The formatting metadata of a cell (everything except its value). -/
def fmtOf (cd : CellData) :
    Option String × Option String × Option String × Option String :=
  (cd.fill, cd.style, cd.hyperlink, cd.comment)

/-- A declared table extent, `ref` already split into its four parts
(`f"{start_col}{start_row}:{end_col}{end_row}"`). -/
structure Tbl where
  startCol : String
  startRowN : Nat
  endCol : String
  endRowN : Nat
deriving DecidableEq, Repr

/-- A value-list data-validation constraint over a column range. -/
structure Dv where
  col : String
  firstRowN : Nat
  lastRowN : Nat
deriving DecidableEq, Repr

/-- A worksheet: rows of cells (index 0 = excel row 1, the header), the
declared tables, and the declared value-list validations. -/
structure Ws where
  rows : List (List CellData)
  tables : List Tbl
  dvs : List Dv
deriving DecidableEq, Repr

/-- Pad a list up to length `n` with `d` (no-op if already long enough). -/
def padTo (l : List α) (n : Nat) (d : α) : List α :=
  l ++ List.replicate (n - l.length) d

/-- `ws.cell(row=r, column=c)` read access (1-based; absent cells read as
fresh blank cells, as in openpyxl). -/
def Ws.getCell (w : Ws) (r c : Nat) : CellData :=
  (w.rows.getD (r - 1) []).getD (c - 1) blankCell

/-- Update position `i` of a row, materialising blank cells up to `i` first
(openpyxl creates the cell on access). -/
def setAt (row : List CellData) (i : Nat) (f : CellData → CellData) : List CellData :=
  (padTo row (i + 1) blankCell).set i (f ((padTo row (i + 1) blankCell).getD i blankCell))

/-- `ws.cell(row=r, column=c)` write access: materialise the row and cell,
then update the cell with `f`. -/
def Ws.setCellF (w : Ws) (r c : Nat) (f : CellData → CellData) : Ws :=
  Ws.mk
    ((padTo w.rows r []).set (r - 1) (setAt ((padTo w.rows r []).getD (r - 1) []) (c - 1) f))
    w.tables w.dvs

/-- `ws.cell(row=r, column=c).value = v`. -/
def Ws.setVal (w : Ws) (r c : Nat) (v : Cell) : Ws :=
  w.setCellF r c (fun cd => { cd with value := v })

/-- `ws.max_row`. -/
def Ws.maxRow (w : Ws) : Nat := w.rows.length

/-- `ws.max_column`. -/
def Ws.maxCol (w : Ws) : Nat := (w.rows.map List.length).foldr max 0

/-- `ws.delete_rows(idx, amount)` (1-based; later rows shift up; tables and
validations are not adjusted, as in openpyxl). -/
def Ws.deleteRows (w : Ws) (idx amount : Nat) : Ws :=
  { w with rows := w.rows.take (idx - 1) ++ w.rows.drop (idx - 1 + amount) }

/-! ### Schema constants (processor.py) -/

/-- The anchor label used to locate the input's header row. -/
def anchor_label : String := "Código_amostra (Código original / Referência amostra)"

/-- `INPUT_TO_DGAV_COLMAP`: DGAV column name → expected pre-registo label. -/
def INPUT_TO_DGAV_COLMAP : List (String × String) :=
  [("DATA_RECEPCAO", "Data recepção amostras"),
   ("DATA_COLHEITA", "Data colheita"),
   ("CODIGO_AMOSTRA", "Código_amostra (Código original / Referência amostra)"),
   ("HOSPEDEIRO", "Espécie indicada / Hospedeiro"),
   ("TIPO_AMOSTRA", "Tipo amostra Simples / Composta"),
   ("ID_ZONA", "Id Zona (Classificação de zona de origem)"),
   ("COD_INT_LAB", "Código interno Lab"),
   ("DATA_REQUERIDO", "Data requerido"),
   ("RESPONSAVEL_AMOSTRAGEM", "Responsável Amostragem (Zona colheita)"),
   ("RESP_COLHEITA", "Responsável colheita (Técnico responsável)"),
   ("PREP_COMMENTS", "Prep_Comments (Observações cliente)"),
   ("PROCEDURE", "Procedure")]

/-- `REQUIRED_DGAV_COLS`: flag if ANY cell of these columns is empty. -/
def REQUIRED_DGAV_COLS : List String :=
  ["DATA_RECEPCAO", "DATA_COLHEITA", "CODIGO_AMOSTRA", "HOSPEDEIRO",
   "TIPO_AMOSTRA", "ID_ZONA", "PROCEDURE", "COD_INT_LAB", "DATA_REQUERIDO"]

/-! ### Substring test (`Series.str.contains`, literal pattern) -/

/-- `pat` is a prefix of `s`. -/
def listStartsWith : List Char → List Char → Bool
  | [], _ => true
  | _ :: _, [] => false
  | p :: ps, c :: cs => p == c && listStartsWith ps cs

/-- `pat` occurs contiguously somewhere in `s`. -/
def containsSubL (pat s : List Char) : Bool :=
  match s with
  | [] => pat.isEmpty
  | _ :: cs => listStartsWith pat s || containsSubL pat cs

/-- Python `pat in s` / `Series.str.contains(pat)` for a literal pattern. -/
def containsSub (s pat : String) : Bool := containsSubL pat.data s.data

/-! ### Header locator (`_find_header_row`) -/

/-- A row matches the first pass: some cell's normalised `str()` equals the
normalised target. -/
def rowHasExact (row : List Cell) (tn : String) : Bool :=
  row.any (fun c => _norm (some (strOfCell c)) == tn)

/-- A row matches the second pass: some cell's normalised `str()` contains
the substring `"codigo amostra"`. -/
def rowHasCodigoSub (row : List Cell) : Bool :=
  row.any (fun c => containsSub (_norm (some (strOfCell c))) "codigo amostra")

/-- Index of the first row (from `i`) satisfying `p`. -/
def findRowFrom (p : List Cell → Bool) : Nat → List (List Cell) → Option Nat
  | _, [] => none
  | i, r :: rs => if p r then some i else findRowFrom p (i + 1) rs

/-- `_find_header_row`: first pass exact normalised match, second pass
substring match, else failure (`ValueError`, modelled as `none`). -/
def _find_header_row (grid : List (List Cell)) (target : String) : Option Nat :=
  let tn := _norm (some target)
  match findRowFrom (fun r => rowHasExact r tn) 0 grid with
  | some i => some i
  | none => findRowFrom rowHasCodigoSub 0 grid

/-! ### Row selection (`_load_pre_registo_df`) -/

/-- `df.dropna(how="all")` keeps a row iff some cell is not NaN/None. -/
def keepRow (r : List Cell) : Bool := r.any (fun c => !(isNa c))

/-- The data rows below header row `h`, after `dropna(how="all")`. -/
def selectRecordsAfter (grid : List (List Cell)) (h : Nat) : List (List Cell) :=
  (grid.drop (h + 1)).filter keepRow

/-- `_load_pre_registo_df`: locate the header, take the header row as column
labels and the surviving rows below it as data (`none` = `HeaderNotFound`). -/
def _load_pre_registo_df (grid : List (List Cell)) :
    Option (List Cell × List (List Cell)) :=
  match _find_header_row grid anchor_label with
  | none => none
  | some h => some (grid.getD h [], selectRecordsAfter grid h)

/-! ### Field mapper (`_map_input_columns`) -/

/-- `norm_to_real`: normalised column label → the ORIGINAL column label (the
raw cell object, as the Python dict stores `col` itself; later columns
overwrite earlier ones, as in a Python dict built in order). -/
def normToReal (headers : List Cell) : List (String × Cell) :=
  headers.enum.foldl (fun acc p => dinsert acc (_normCell p.2) p.2) []

/-- `_map_input_columns`: DGAV column → the matching input column's original
label, or `none` when the label does not resolve. -/
def _map_input_columns (headers : List Cell) : List (String × Option Cell) :=
  INPUT_TO_DGAV_COLMAP.map
    (fun q => (q.1, dget (normToReal headers) (_norm (some q.2))))

/-- The 0-based positions of the columns labelled `lbl`, by the object
equality pandas uses to index `row_in` (a Series indexed by `df.columns`,
the original header labels). -/
def headerPositions (headers : List Cell) (lbl : Cell) : List Nat :=
  (headers.enum.filter (fun p => p.2 == lbl)).map (fun p => p.1)

/-- `row_in.get(df_col_name)`: a label occurring once yields that column's
scalar, an absent label the default `None`; `none` models the label
occurring several times verbatim, where pandas returns a sub-Series — a
value openpyxl cannot write (`ValueError`). -/
def pandasRowGet (headers rowIn : List Cell) (lbl : Cell) : Option Cell :=
  match headerPositions headers lbl with
  | [] => some Cell.nullc
  | [i] => some (rowIn.getD i Cell.nullc)
  | _ => none

/-! ### Template utilities -/

/-- One column of the `_build_header_index` loop: record a truthy header
cell under its normalised name. -/
def bhiStep (w : Ws) (acc : List (String × Nat)) (c : Nat) : List (String × Nat) :=
  if cellTruthy (w.getCell 1 c).value then dinsert acc (_normCell (w.getCell 1 c).value) c
  else acc

/-- `_build_header_index`: normalised DGAV header name → column index
(columns `1..max_column` of row 1, skipping falsy cells). -/
def _build_header_index (w : Ws) : List (String × Nat) :=
  (List.range' 1 w.maxCol).foldl (bhiStep w) []

/-- The red fill applied to incomplete required-field headers. -/
def redFill : String := "FFFF0000"

/-- Some cell of column `colIdx`, rows `startRowN..lastRowN`, is empty
(`v in (None, "")`). -/
def anyEmptyInCol (w : Ws) (colIdx startRowN lastRowN : Nat) : Bool :=
  (List.range' startRowN (lastRowN + 1 - startRowN)).any
    (fun r => isEmptyCellP (w.getCell r colIdx).value)

/-- One iteration of the `_mark_required_empty_columns` loop: skip an
unresolved column, otherwise paint its header red when some cell of the
column in `startRowN..lastRowN` is empty. -/
def markStep (hidx : List (String × Nat)) (startRowN lastRowN : Nat)
    (acc : Ws) (nm : String) : Ws :=
  match dget hidx (_norm (some nm)) with
  | none => acc
  | some j =>
    if anyEmptyInCol acc j startRowN lastRowN then
      acc.setCellF 1 j (fun cd => { cd with fill := some redFill })
    else acc

/-- `_mark_required_empty_columns`: paint the header cell of each required
column red when ANY cell of that column in `startRowN..lastRowN` is empty;
a required column absent from the sheet is skipped. -/
def _mark_required_empty_columns (w : Ws) (hidx : List (String × Nat))
    (startRowN lastRowN : Nat) : Ws :=
  REQUIRED_DGAV_COLS.foldl (markStep hidx startRowN lastRowN) w

/-! ### Main processing (`process_pre_to_dgav`) -/

/-- The fatal failure kinds: the two defined errors, plus the uncaught
`ValueError` that openpyxl raises in step 4 when `row_in.get` on a
duplicated input header label returns a pandas Series. -/
inductive PErr where
  | templateMissing
  | headerNotFound
  | valueError
deriving DecidableEq, Repr

/-- Step 4.1: fill row `er` with the template's row-2 defaults. -/
def writeRowDefaults (w : Ws) (hidx : List (String × Nat))
    (base : List (String × Cell)) (er : Nat) : Ws :=
  hidx.foldl (fun acc p => acc.setVal er p.2 ((dget base p.1).getD Cell.nullc)) w

/-- One DGAV column of the step-4.2 loop: skip when the DGAV column is not
in the sheet or the input column did not resolve / is falsy (keeping the
default), otherwise fetch `row_in.get(df_col_name)` by label and write the
coerced value.  The `pandasRowGet ... = none` (duplicated-label Series)
branch is where the source raises `ValueError`; the abort it causes is
modelled by the `writeRaises` guard in `process_pre_to_dgav`, which fires
on exactly this condition, so the branch itself is unreachable on runs the
model lets succeed. -/
def wrmStep (hidx : List (String × Nat)) (colmap : List (String × Option Cell))
    (headers : List Cell) (rowIn : List Cell) (er : Nat) (acc : Ws)
    (q : String × String) : Ws :=
  match dget hidx (_norm (some q.1)) with
  | none => acc
  | some j =>
    match dget colmap q.1 with
    | none => acc
    | some none => acc
    | some (some lbl) =>
      if cellTruthy lbl then
        match pandasRowGet headers rowIn lbl with
        | some v => acc.setVal er j (transformVal v)
        | none => acc
      else acc

/-- Step 4.2: overwrite mapped DGAV columns of row `er` with the (coerced)
input values; unmapped columns keep the defaults. -/
def writeRowMapped (w : Ws) (hidx : List (String × Nat))
    (colmap : List (String × Option Cell)) (headers : List Cell)
    (rowIn : List Cell) (er : Nat) : Ws :=
  INPUT_TO_DGAV_COLMAP.foldl (wrmStep hidx colmap headers rowIn er) w

/-- One record of the step-4 loop: fill the row with the template defaults,
then overwrite the mapped columns. -/
def rowStep (hidx : List (String × Nat)) (base : List (String × Cell))
    (colmap : List (String × Option Cell)) (headers : List Cell)
    (acc : Ws) (p : Nat × List Cell) : Ws :=
  writeRowMapped (writeRowDefaults acc hidx base (2 + p.1)) hidx colmap headers
    p.2 (2 + p.1)

/-- Step 4: one output row per selected record, defaults first, then the
mapped values, at sequential rows from 2. -/
def writeAllRows (w : Ws) (hidx : List (String × Nat))
    (base : List (String × Cell)) (colmap : List (String × Option Cell))
    (headers : List Cell) (dataRows : List (List Cell)) : Ws :=
  dataRows.enum.foldl (rowStep hidx base colmap headers) w

/-- One colmap entry makes the step-4.2 write raise `ValueError`: the DGAV
column is in the sheet, the input label resolved to a truthy value, and
that label occurs several times verbatim among the input headers, so
`row_in.get` returns a pandas Series openpyxl cannot write. -/
def wrmRaises (hidx : List (String × Nat)) (colmap : List (String × Option Cell))
    (headers : List Cell) (q : String × String) : Bool :=
  match dget hidx (_norm (some q.1)) with
  | none => false
  | some _ =>
    match dget colmap q.1 with
    | none => false
    | some none => false
    | some (some lbl) =>
      cellTruthy lbl && decide (2 ≤ (headerPositions headers lbl).length)

/-- The step-4 loop raises `ValueError` iff at least one record is written
and some mapped column hits a duplicated label.  The exception aborts the
whole conversion and discards the partially written in-memory sheet, so
only its identity is observable and it can be checked up front. -/
def writeRaises (tpl : Ws) (headers : List Cell) (n : Nat) : Bool :=
  decide (0 < n) && INPUT_TO_DGAV_COLMAP.any
    (wrmRaises (_build_header_index tpl) (_map_input_columns headers) headers)

/-- The template's row-2 default values, keyed by normalised header name
(read before any row is deleted). -/
def baseValues (tpl : Ws) : List (String × Cell) :=
  (_build_header_index tpl).map (fun p => (p.1, (tpl.getCell 2 p.2).value))

/-- Step 3: delete every row from row 2 down (`delete_rows(2, max_row-1)`),
guarded by `max_row > 1`. -/
def clearedTpl (tpl : Ws) : Ws :=
  if tpl.maxRow > 1 then tpl.deleteRows 2 (tpl.maxRow - 1) else tpl

/-- `last_row = start_row + n_samples - 1 if n_samples > 0 else 1`. -/
def lastRowOf (n : Nat) : Nat := if n > 0 then n + 1 else 1

/-- Step 4: the worksheet after writing one output row per record. -/
def writtenWs (tpl : Ws) (headers : List Cell) (dataRows : List (List Cell)) : Ws :=
  writeAllRows (clearedTpl tpl) (_build_header_index tpl) (baseValues tpl)
    (_map_input_columns headers) headers dataRows

/-- Step 5: required-column validation, only when at least one sample. -/
def markedWs (tpl : Ws) (headers : List Cell) (dataRows : List (List Cell)) : Ws :=
  if dataRows.length > 0 then
    _mark_required_empty_columns (writtenWs tpl headers dataRows)
      (_build_header_index tpl) 2 (lastRowOf dataRows.length)
  else writtenWs tpl headers dataRows

/-- Step 6: trim any rows beyond `last_row`. -/
def trimmedWs (tpl : Ws) (headers : List Cell) (dataRows : List (List Cell)) : Ws :=
  if (markedWs tpl headers dataRows).maxRow > lastRowOf dataRows.length then
    (markedWs tpl headers dataRows).deleteRows (lastRowOf dataRows.length + 1)
      ((markedWs tpl headers dataRows).maxRow - lastRowOf dataRows.length)
  else markedWs tpl headers dataRows

/-- Steps 2–6B of `process_pre_to_dgav` on an already-loaded input: clear the
template's rows from row 2, write one row per record (defaults first, then
mapped values), mark required columns, trim spare rows, and shrink the
declared tables' refs to end at `last_row`. -/
def convertBody (tpl : Ws) (headers : List Cell) (dataRows : List (List Cell)) : Ws :=
  Ws.mk (trimmedWs tpl headers dataRows).rows
    ((trimmedWs tpl headers dataRows).tables.map
      (fun t => { t with endRowN := lastRowOf dataRows.length }))
    (trimmedWs tpl headers dataRows).dvs

/-- `process_pre_to_dgav`: the full conversion.  `templateExists` models the
`DGAV_TEMPLATE_PATH.exists()` precondition, `tpl` the fresh in-memory copy of
the template workbook's `"Default"` sheet, `grid` the raw input grid.  The
uncaught `ValueError` from a duplicated-label write in step 4 (whose partial
sheet is never observable) is the third way a run can end. -/
def process_pre_to_dgav (templateExists : Bool) (tpl : Ws)
    (grid : List (List Cell)) : Except PErr (Ws × String) :=
  if !templateExists then .error .templateMissing else
  match _load_pre_registo_df grid with
  | none => .error .headerNotFound
  | some (headers, dataRows) =>
    if writeRaises tpl headers dataRows.length then .error .valueError
    else .ok (convertBody tpl headers dataRows,
      "Foram processadas " ++ toString dataRows.length ++ " amostras.")

/-! ### Downstream analysis (`analyse_output_xlsx`, app.py) -/

/-- The sample count computed by `analyse_output_xlsx`: the number of
non-empty `CODIGO_AMOSTRA` cells in rows `2..max_row` of the output. -/
def analyse_output_count (w : Ws) : Nat :=
  let hidx := _build_header_index w
  match dget hidx (_norm (some "CODIGO_AMOSTRA")) with
  | none => 0
  | some j =>
    if j == 0 then 0
    else ((List.range' 2 (w.maxRow - 1)).filter
      (fun r => !(isEmptyCellP (w.getCell r j).value))).length

/-! ### Concrete fixtures used by counterexamples and witnesses -/

/-- A grid whose header row is the anchor label itself, followed by a data
row with an empty key cell but a non-empty second cell, and a fully empty
row. -/
def gridKeyless : List (List Cell) :=
  [[Cell.str anchor_label, Cell.str "Data colheita"],
   [Cell.nullc, Cell.str "x"],
   [Cell.nullc, Cell.nullc]]

/-- A two-column DGAV template sheet: header row 1, styled default row 2
(green fill, style token, hyperlink, comment on the first cell), a spare
row 3, one declared table `A1:B3` and one value-list validation `B2:B9`. -/
def tplSmall : Ws :=
  { rows := [[⟨Cell.str "CODIGO_AMOSTRA", none, some "S1", none, none⟩,
              ⟨Cell.str "DATA_COLHEITA", none, none, none, none⟩],
             [⟨Cell.str "DEF1", some "GREEN", some "S2", some "http", some "note"⟩,
              ⟨Cell.str "DEF2", none, none, none, none⟩],
             [⟨Cell.str "extra", none, none, none, none⟩]],
    tables := [⟨"A", 1, "B", 3⟩], dvs := [⟨"B", 2, 9⟩] }

/-- An input grid for `tplSmall`: one title row, the header row, a full
record, an all-empty row (dropped), a record with an empty key cell and a
record with an empty date. -/
def gridSmall : List (List Cell) :=
  [[Cell.str "Titulo", Cell.nullc],
   [Cell.str anchor_label, Cell.str "Data colheita"],
   [Cell.str "X1", Cell.datetime 100 5],
   [Cell.nullc, Cell.nanc],
   [Cell.nullc, Cell.str "oops"],
   [Cell.str "X2", Cell.nullc]]

/-- An input grid for `tplSmall` with a header row but no surviving data
rows (the zero-record boundary). -/
def gridEmpty : List (List Cell) :=
  [[Cell.str anchor_label, Cell.str "Data colheita"],
   [Cell.nullc, Cell.nullc]]

/-- An input grid for `tplSmall` whose header row repeats the anchor label
verbatim, with one surviving data row: the key-field `row_in.get` then
yields a two-column pandas Series and the step-4 write raises
`ValueError`. -/
def gridDup : List (List Cell) :=
  [[Cell.str anchor_label, Cell.str anchor_label],
   [Cell.str "X1", Cell.str "X2"]]

/-- A one-column output sheet whose single data cell holds a whitespace-only
string. -/
def wsWhite : Ws :=
  { rows := [[⟨Cell.str "CODIGO_AMOSTRA", none, none, none, none⟩],
             [⟨Cell.str " ", none, none, none, none⟩]],
    tables := [], dvs := [] }

end Xylella

namespace Xylella

/-! ## Claims -/

/-- C1 (counterexample): in `gridKeyless` the key-field column resolves (to
the anchor label, whose unique position is column 0) and the second row's
key cell is empty after stripping, yet
`_load_pre_registo_df` keeps that row as a record (while dropping the
all-empty row): the code never filters on the key field, contradicting the
claimed "kept iff key non-empty". -/
theorem c1_row_selection_cex :
    _load_pre_registo_df gridKeyless =
      some ([Cell.str anchor_label, Cell.str "Data colheita"],
            [[Cell.nullc, Cell.str "x"]]) ∧
    dget (_map_input_columns [Cell.str anchor_label, Cell.str "Data colheita"])
      "CODIGO_AMOSTRA" = some (some (Cell.str anchor_label)) ∧
    headerPositions [Cell.str anchor_label, Cell.str "Data colheita"]
      (Cell.str anchor_label) = [0] ∧
    isEmptyCellP (([Cell.nullc, Cell.str "x"] : List Cell).getD 0 Cell.nullc) = true := by
  decide

/-- C1 (amended): a data row below the located header is kept as a record
iff at least one of its cells is not `None`/NaN (`dropna(how="all")`); the
key-field value is never consulted; kept rows preserve first-seen order. -/
theorem c1_row_selection_amended (grid : List (List Cell)) (h : Nat)
    (hh : _find_header_row grid anchor_label = some h) :
    _load_pre_registo_df grid = some (grid.getD h [], selectRecordsAfter grid h) ∧
    (∀ r, r ∈ selectRecordsAfter grid h ↔
      r ∈ grid.drop (h + 1) ∧ ∃ c ∈ r, isNa c = false) ∧
    List.Sublist (selectRecordsAfter grid h) (grid.drop (h + 1)) := by
  refine ⟨by simp [_load_pre_registo_df, hh], fun r => ?_, List.filter_sublist _⟩
  simp [selectRecordsAfter, List.mem_filter, keepRow, List.any_eq_true]

/-- C1 (witness for the amended theorem), at `gridKeyless`. -/
theorem c1_row_selection_amended_witness :
    _load_pre_registo_df gridKeyless =
      some (gridKeyless.getD 0 [], selectRecordsAfter gridKeyless 0) ∧
    ([Cell.nullc, Cell.str "x"] ∈ selectRecordsAfter gridKeyless 0 ↔
      [Cell.nullc, Cell.str "x"] ∈ gridKeyless.drop 1 ∧
      ∃ c ∈ ([Cell.nullc, Cell.str "x"] : List Cell), isNa c = false) :=
  ⟨(c1_row_selection_amended gridKeyless 0 (by decide)).1,
   (c1_row_selection_amended gridKeyless 0 (by decide)).2.1 _⟩

/-! ### Lemmas about `findRowFrom` -/

theorem findRowFrom_none_iff (p : List Cell → Bool) (l : List (List Cell)) (i : Nat) :
    findRowFrom p i l = none ↔ ∀ r ∈ l, p r = false := by
  induction l generalizing i with
  | nil => simp [findRowFrom]
  | cons r rs ih =>
    by_cases hp : p r
    · simp [findRowFrom, hp]
    · simp [findRowFrom, hp, ih (i + 1)]

theorem findRowFrom_some_spec (p : List Cell → Bool) (l : List (List Cell)) (i k : Nat)
    (h : findRowFrom p i l = some k) :
    ∃ j, k = i + j ∧ ∃ row, l[j]? = some row ∧ p row = true ∧
      ∀ m row', m < j → l[m]? = some row' → p row' = false := by
  induction l generalizing i k with
  | nil => simp [findRowFrom] at h
  | cons r rs ih =>
    by_cases hp : p r
    · rw [findRowFrom, if_pos (by simpa using hp)] at h
      have hik : i = k := Option.some.inj h
      subst hik
      exact ⟨0, by omega, r, by simp, hp,
        fun m row' hm _ => absurd hm (Nat.not_lt_zero m)⟩
    · rw [findRowFrom, if_neg (by simpa using hp)] at h
      obtain ⟨j, hk, row, hrow, hprow, hmin⟩ := ih (i + 1) k h
      refine ⟨j + 1, by omega, row, by simpa using hrow, hprow, ?_⟩
      intro m row' hm hget
      match m, hget with
      | 0, hget =>
        simp at hget
        subst hget
        simpa using hp
      | m' + 1, hget =>
        exact hmin m' row' (by omega) (by simpa using hget)

theorem findRowFrom_isSome_of_mem (p : List Cell → Bool) (l : List (List Cell)) (i : Nat)
    (r : List Cell) (hr : r ∈ l) (hp : p r = true) :
    ∃ k, findRowFrom p i l = some k := by
  cases hfind : findRowFrom p i l with
  | some k => exact ⟨k, rfl⟩
  | none =>
    rw [findRowFrom_none_iff] at hfind
    rw [hfind r hr] at hp
    cases hp

/-- C7: `_find_header_row` scans top-to-bottom; if some cell of some row
normalises exactly to the normalised anchor label, the first such row's
index is returned; failing that, the first row with a cell whose normalised
text contains `"codigo amostra"` is returned; otherwise the locator fails
(`none`, surfaced as `HeaderNotFound`). -/
theorem c7_header_location (grid : List (List Cell)) (target : String) :
    (∀ k row, grid[k]? = some row → rowHasExact row (_norm (some target)) = true →
      ∃ j row', _find_header_row grid target = some j ∧ j ≤ k ∧ grid[j]? = some row' ∧
        rowHasExact row' (_norm (some target)) = true ∧
        ∀ m row'', m < j → grid[m]? = some row'' →
          rowHasExact row'' (_norm (some target)) = false) ∧
    ((∀ row ∈ grid, rowHasExact row (_norm (some target)) = false) →
      ∀ k row, grid[k]? = some row → rowHasCodigoSub row = true →
      ∃ j row', _find_header_row grid target = some j ∧ j ≤ k ∧ grid[j]? = some row' ∧
        rowHasCodigoSub row' = true ∧
        ∀ m row'', m < j → grid[m]? = some row'' → rowHasCodigoSub row'' = false) ∧
    ((∀ row ∈ grid, rowHasExact row (_norm (some target)) = false ∧
        rowHasCodigoSub row = false) →
      _find_header_row grid target = none) := by
  refine ⟨?_, ?_, ?_⟩
  · intro k row hget hex
    have hmem : row ∈ grid := by
      have := List.getElem?_eq_some.mp hget
      obtain ⟨hlt, hEq⟩ := this
      exact hEq ▸ List.getElem_mem hlt
    obtain ⟨k0, hk0⟩ :=
      findRowFrom_isSome_of_mem (fun r => rowHasExact r (_norm (some target))) grid 0 row hmem hex
    obtain ⟨j, hj, row', hrow', hprow', hmin⟩ :=
      findRowFrom_some_spec (fun r => rowHasExact r (_norm (some target))) grid 0 k0 hk0
    have hjk : j ≤ k := by
      by_contra hlt
      have := hmin k row (by omega) hget
      rw [hex] at this
      cases this
    refine ⟨j, row', ?_, hjk, hrow', hprow', hmin⟩
    rw [_find_header_row, hk0]
    show some k0 = some j
    exact congrArg some (by omega)
  · intro hnoex k row hget hsub
    have hmem : row ∈ grid := by
      obtain ⟨hlt, hEq⟩ := List.getElem?_eq_some.mp hget
      exact hEq ▸ List.getElem_mem hlt
    have hnone : findRowFrom (fun r => rowHasExact r (_norm (some target))) 0 grid = none :=
      (findRowFrom_none_iff _ grid 0).mpr hnoex
    obtain ⟨k0, hk0⟩ := findRowFrom_isSome_of_mem rowHasCodigoSub grid 0 row hmem hsub
    obtain ⟨j, hj, row', hrow', hprow', hmin⟩ :=
      findRowFrom_some_spec rowHasCodigoSub grid 0 k0 hk0
    have hjk : j ≤ k := by
      by_contra hlt
      have := hmin k row (by omega) hget
      rw [hsub] at this
      cases this
    refine ⟨j, row', ?_, hjk, hrow', hprow', hmin⟩
    rw [_find_header_row, hnone, hk0]
    show some k0 = some j
    exact congrArg some (by omega)
  · intro hno
    have h1 : findRowFrom (fun r => rowHasExact r (_norm (some target))) 0 grid = none :=
      (findRowFrom_none_iff _ grid 0).mpr (fun r hr => (hno r hr).1)
    have h2 : findRowFrom rowHasCodigoSub 0 grid = none :=
      (findRowFrom_none_iff _ grid 0).mpr (fun r hr => (hno r hr).2)
    rw [_find_header_row, h1, h2]

/-- C7 (witness): in `gridSmall` the header row (index 1) holds the anchor
label exactly, and the locator returns it. -/
theorem c7_header_location_witness :
    ∃ j row', _find_header_row gridSmall anchor_label = some j ∧ j ≤ 1 ∧
      gridSmall[j]? = some row' ∧
      rowHasExact row' (_norm (some anchor_label)) = true ∧
      ∀ m row'', m < j → gridSmall[m]? = some row'' →
        rowHasExact row'' (_norm (some anchor_label)) = false :=
  (c7_header_location gridSmall anchor_label).1 1
    [Cell.str anchor_label, Cell.str "Data colheita"] (by decide) (by decide)

/-- C10: both the required-field validator and the downstream analysis use
the emptiness test `v in (None, "")`: a cell is empty exactly when it is
`None` or the empty string, so a whitespace-only cell counts as complete
(`wsWhite` is left unflagged) and is counted as a record by the re-scan. -/
theorem c10_whitespace_is_complete :
    (∀ c, isEmptyCellP c = true ↔ (c = Cell.nullc ∨ c = Cell.str "")) ∧
    isEmptyCellP (Cell.str " ") = false ∧
    analyse_output_count wsWhite = 1 ∧
    _mark_required_empty_columns wsWhite (_build_header_index wsWhite) 2 2 = wsWhite := by
  refine ⟨fun c => ?_, by decide, by decide, by decide⟩
  cases c <;> simp [isEmptyCellP]

/-! ### Worksheet access lemmas -/

theorem replicate_getD (k : Nat) (d : α) (i : Nat) :
    (List.replicate k d).getD i d = d := by
  induction k generalizing i with
  | zero => simp
  | succ k ih =>
    cases i with
    | zero => simp [List.replicate]
    | succ i =>
      show (d :: List.replicate k d).getD (i + 1) d = d
      rw [List.getD_cons_succ]
      exact ih i

theorem padTo_getD (l : List α) (n : Nat) (d : α) (i : Nat) :
    (padTo l n d).getD i d = l.getD i d := by
  induction l generalizing n i with
  | nil =>
    simp only [padTo, List.nil_append, List.length_nil, Nat.sub_zero]
    rw [replicate_getD]
    simp
  | cons a l ih =>
    have hrw : padTo (a :: l) n d = a :: padTo l (n - 1) d := by
      simp only [padTo, List.cons_append, List.length_cons]
      congr 3
      omega
    cases i with
    | zero => rw [hrw]; rfl
    | succ i => rw [hrw, List.getD_cons_succ, List.getD_cons_succ, ih]

theorem length_padTo (l : List α) (n : Nat) (d : α) :
    (padTo l n d).length = max l.length n := by
  simp [padTo]
  omega

theorem getD_set_self (l : List α) (i : Nat) (a d : α) (h : i < l.length) :
    (l.set i a).getD i d = a := by
  induction l generalizing i with
  | nil => simp at h
  | cons x l ih =>
    cases i with
    | zero => rfl
    | succ i =>
      show (x :: l.set i a).getD (i + 1) d = a
      rw [List.getD_cons_succ]
      exact ih i (by simpa using h)

theorem getD_set_other (l : List α) (i j : Nat) (a d : α) (h : i ≠ j) :
    (l.set i a).getD j d = l.getD j d := by
  induction l generalizing i j with
  | nil => simp
  | cons x l ih =>
    cases i with
    | zero =>
      cases j with
      | zero => exact absurd rfl h
      | succ j => rfl
    | succ i =>
      cases j with
      | zero => rfl
      | succ j =>
        show (x :: l.set i a).getD (j + 1) d = (x :: l).getD (j + 1) d
        rw [List.getD_cons_succ, List.getD_cons_succ]
        exact ih i j (by omega)

theorem setAt_getD_self (row : List CellData) (i : Nat) (f : CellData → CellData) :
    (setAt row i f).getD i blankCell = f (row.getD i blankCell) := by
  unfold setAt
  rw [getD_set_self _ _ _ _ (by rw [length_padTo]; omega), padTo_getD]

theorem setAt_getD_other (row : List CellData) (i j : Nat) (f : CellData → CellData)
    (h : j ≠ i) :
    (setAt row i f).getD j blankCell = row.getD j blankCell := by
  unfold setAt
  rw [getD_set_other _ _ _ _ _ (Ne.symm h), padTo_getD]

theorem getCell_setCellF_self (w : Ws) (r c : Nat) (f : CellData → CellData)
    (hr : 1 ≤ r) :
    (w.setCellF r c f).getCell r c = f (w.getCell r c) := by
  show (((padTo w.rows r []).set (r - 1)
      (setAt ((padTo w.rows r []).getD (r - 1) []) (c - 1) f)).getD (r - 1) []).getD
        (c - 1) blankCell = f ((w.rows.getD (r - 1) []).getD (c - 1) blankCell)
  rw [getD_set_self _ _ _ _ (by rw [length_padTo]; omega), setAt_getD_self, padTo_getD]

theorem getCell_setCellF_untouched (w : Ws) (r c r' c' : Nat) (f : CellData → CellData)
    (hr : 1 ≤ r) (hne : r' - 1 ≠ r - 1 ∨ c' - 1 ≠ c - 1) :
    (w.setCellF r c f).getCell r' c' = w.getCell r' c' := by
  show (((padTo w.rows r []).set (r - 1)
      (setAt ((padTo w.rows r []).getD (r - 1) []) (c - 1) f)).getD (r' - 1) []).getD
        (c' - 1) blankCell = (w.rows.getD (r' - 1) []).getD (c' - 1) blankCell
  rcases eq_or_ne (r' - 1) (r - 1) with he | he
  · have hcc : c' - 1 ≠ c - 1 := hne.resolve_left (by simp [he])
    rw [he, getD_set_self _ _ _ _ (by rw [length_padTo]; omega),
      setAt_getD_other _ _ _ _ hcc, padTo_getD]
  · rw [getD_set_other _ _ _ _ _ (Ne.symm he), padTo_getD]

theorem getCell_setCellF_value (w : Ws) (r c : Nat) (f : CellData → CellData)
    (hf : ∀ cd, (f cd).value = cd.value) (hr : 1 ≤ r) (r' c' : Nat) :
    ((w.setCellF r c f).getCell r' c').value = (w.getCell r' c').value := by
  show ((((padTo w.rows r []).set (r - 1)
      (setAt ((padTo w.rows r []).getD (r - 1) []) (c - 1) f)).getD (r' - 1) []).getD
        (c' - 1) blankCell).value =
    ((w.rows.getD (r' - 1) []).getD (c' - 1) blankCell).value
  rcases eq_or_ne (r' - 1) (r - 1) with he | he
  · rw [he, getD_set_self _ _ _ _ (by rw [length_padTo]; omega)]
    rcases eq_or_ne (c' - 1) (c - 1) with hce | hce
    · rw [hce, setAt_getD_self, hf, padTo_getD]
    · rw [setAt_getD_other _ _ _ _ hce, padTo_getD]
  · rw [getD_set_other _ _ _ _ _ (Ne.symm he), padTo_getD]

theorem maxRow_setCellF (w : Ws) (r c : Nat) (f : CellData → CellData) :
    (w.setCellF r c f).maxRow = max w.maxRow r := by
  show ((padTo w.rows r []).set (r - 1)
      (setAt ((padTo w.rows r []).getD (r - 1) []) (c - 1) f)).length = max w.rows.length r
  rw [List.length_set, length_padTo]

theorem tables_setCellF (w : Ws) (r c : Nat) (f : CellData → CellData) :
    (w.setCellF r c f).tables = w.tables := rfl

theorem dvs_setCellF (w : Ws) (r c : Nat) (f : CellData → CellData) :
    (w.setCellF r c f).dvs = w.dvs := rfl

theorem tables_deleteRows (w : Ws) (i a : Nat) : (w.deleteRows i a).tables = w.tables := rfl

theorem dvs_deleteRows (w : Ws) (i a : Nat) : (w.deleteRows i a).dvs = w.dvs := rfl

theorem anyEmptyInCol_congr (w w' : Ws)
    (h : ∀ r c, (w.getCell r c).value = (w'.getCell r c).value) (j s l : Nat) :
    anyEmptyInCol w j s l = anyEmptyInCol w' j s l := by
  unfold anyEmptyInCol
  have : (fun r => isEmptyCellP (w.getCell r j).value) =
      fun r => isEmptyCellP (w'.getCell r j).value := funext fun r => by rw [h]
  rw [this]

/-! ### The required-field marking fold -/

theorem dget_mem {α : Type} (l : List (String × α)) (k : String) (v : α)
    (h : dget l k = some v) : (k, v) ∈ l := by
  unfold dget at h
  cases hf : l.find? (fun p => p.1 == k) with
  | none => rw [hf] at h; cases h
  | some p =>
    rw [hf] at h
    have hp := List.find?_some hf
    have hm := List.mem_of_find?_eq_some hf
    simp at h hp
    rcases p with ⟨k', v'⟩
    simp at hp
    subst hp
    simp at h
    subst h
    exact hm

theorem markStep_facts (hidx : List (String × Nat)) (hpos : ∀ p ∈ hidx, 1 ≤ p.2)
    (s l : Nat) (w : Ws) (nm : String) :
    (∀ r c, ((markStep hidx s l w nm).getCell r c).value = (w.getCell r c).value) ∧
    (∀ r c, 2 ≤ r → (markStep hidx s l w nm).getCell r c = w.getCell r c) ∧
    (∀ c, 1 ≤ c →
      (markStep hidx s l w nm).getCell 1 c =
        if dget hidx (_norm (some nm)) = some c ∧ anyEmptyInCol w c s l = true
        then { w.getCell 1 c with fill := some redFill } else w.getCell 1 c) := by
  cases hd : dget hidx (_norm (some nm)) with
  | none =>
    have hred : markStep hidx s l w nm = w := by
      unfold markStep
      rw [hd]
    rw [hred]
    refine ⟨fun r c => rfl, fun r c _ => rfl, fun c hc => ?_⟩
    rw [if_neg]
    rintro ⟨h1, -⟩
    cases h1
  | some j =>
    have hj : 1 ≤ j := hpos _ (dget_mem _ _ _ hd)
    have hred : markStep hidx s l w nm =
        (if anyEmptyInCol w j s l then
          w.setCellF 1 j (fun cd => { cd with fill := some redFill }) else w) := by
      unfold markStep
      rw [hd]
    rw [hred]
    by_cases hae : anyEmptyInCol w j s l
    · rw [if_pos hae]
      refine ⟨fun r c => getCell_setCellF_value w 1 j
          (fun cd => { cd with fill := some redFill }) (fun cd => rfl) (by omega) r c,
        fun r c hr =>
          getCell_setCellF_untouched w 1 j r c _ (by omega) (Or.inl (by omega)),
        fun c hc => ?_⟩
      rcases eq_or_ne c j with hcj | hcj
      · subst hcj
        rw [getCell_setCellF_self w 1 c _ (by omega), if_pos ⟨rfl, hae⟩]
      · rw [getCell_setCellF_untouched w 1 j 1 c _ (by omega) (Or.inr (by omega)), if_neg]
        rintro ⟨h1, -⟩
        have hjc : j = c := Option.some.inj h1
        exact hcj hjc.symm
    · rw [if_neg hae]
      refine ⟨fun r c => rfl, fun r c _ => rfl, fun c hc => ?_⟩
      rw [if_neg]
      rintro ⟨h1, h2⟩
      have hjc : j = c := Option.some.inj h1
      subst hjc
      exact hae h2

theorem markFold_getCell (hidx : List (String × Nat)) (hpos : ∀ p ∈ hidx, 1 ≤ p.2)
    (s l : Nat) :
    ∀ (names : List String) (w : Ws),
      (∀ r c, ((names.foldl (markStep hidx s l) w).getCell r c).value =
        (w.getCell r c).value) ∧
      (∀ r c, 2 ≤ r → (names.foldl (markStep hidx s l) w).getCell r c = w.getCell r c) ∧
      (∀ c, 1 ≤ c →
        (names.foldl (markStep hidx s l) w).getCell 1 c =
          if ∃ nm ∈ names, dget hidx (_norm (some nm)) = some c ∧
               anyEmptyInCol w c s l = true
          then { w.getCell 1 c with fill := some redFill } else w.getCell 1 c)
  | [], w => ⟨fun r c => rfl, fun r c _ => rfl, fun c hc => by simp⟩
  | nm :: names, w => by
    obtain ⟨hs_val, hs_other, hs_head⟩ := markStep_facts hidx hpos s l w nm
    obtain ⟨ih_val, ih_other, ih_head⟩ :=
      markFold_getCell hidx hpos s l names (markStep hidx s l w nm)
    have hae_eq : ∀ c, anyEmptyInCol (markStep hidx s l w nm) c s l =
        anyEmptyInCol w c s l :=
      fun c => anyEmptyInCol_congr _ _ hs_val c s l
    refine ⟨fun r c => by rw [List.foldl_cons, ih_val, hs_val],
      fun r c hr => by rw [List.foldl_cons, ih_other r c hr, hs_other r c hr],
      fun c hc => ?_⟩
    rw [List.foldl_cons, ih_head c hc, hs_head c hc]
    by_cases hhit : dget hidx (_norm (some nm)) = some c ∧ anyEmptyInCol w c s l = true
    · rw [if_pos hhit]
      have hcond : ∃ nm' ∈ nm :: names, dget hidx (_norm (some nm')) = some c ∧
          anyEmptyInCol w c s l = true := ⟨nm, List.mem_cons_self nm names, hhit⟩
      rw [if_congr (Iff.rfl.trans (by rw [hae_eq])) rfl rfl]
      by_cases hrest : ∃ nm' ∈ names, dget hidx (_norm (some nm')) = some c ∧
          anyEmptyInCol w c s l = true
      · rw [if_pos hrest, if_pos hcond]
      · rw [if_neg hrest, if_pos hcond]
    · rw [if_neg hhit]
      rw [if_congr (Iff.rfl.trans (by rw [hae_eq])) rfl rfl]
      have hsplit : (∃ nm' ∈ nm :: names, dget hidx (_norm (some nm')) = some c ∧
          anyEmptyInCol w c s l = true) ↔
          (∃ nm' ∈ names, dget hidx (_norm (some nm')) = some c ∧
            anyEmptyInCol w c s l = true) := by
        constructor
        · rintro ⟨nm', hmem, hd, hae⟩
          rcases List.mem_cons.mp hmem with rfl | hmem'
          · exact absurd ⟨hd, hae⟩ hhit
          · exact ⟨nm', hmem', hd, hae⟩
        · rintro ⟨nm', hmem, hd, hae⟩
          exact ⟨nm', List.mem_cons_of_mem _ hmem, hd, hae⟩
      rw [if_congr hsplit rfl rfl]

/-- C9: after `_mark_required_empty_columns` over rows `s..l`, a header cell
(of column `c`) carries the red incomplete flag exactly when some required
field resolves to column `c` and some cell of that column in `s..l` is
`None` or `""`; data rows are untouched; `anyEmptyInCol` is the claimed
"at least one empty cell" test; and when no required field resolves at all
the sheet is returned unchanged (silent skip, no error). -/
theorem c9_required_field_flagging (w : Ws) (hidx : List (String × Nat))
    (hpos : ∀ p ∈ hidx, 1 ≤ p.2) (s l : Nat) :
    (∀ c, 1 ≤ c →
      (_mark_required_empty_columns w hidx s l).getCell 1 c =
        if ∃ nm ∈ REQUIRED_DGAV_COLS, dget hidx (_norm (some nm)) = some c ∧
             anyEmptyInCol w c s l = true
        then { w.getCell 1 c with fill := some redFill } else w.getCell 1 c) ∧
    (∀ r c, 2 ≤ r →
      (_mark_required_empty_columns w hidx s l).getCell r c = w.getCell r c) ∧
    (∀ j, anyEmptyInCol w j s l = true ↔
      ∃ r, s ≤ r ∧ r ≤ l ∧ isEmptyCellP (w.getCell r j).value = true) ∧
    ((∀ nm ∈ REQUIRED_DGAV_COLS, dget hidx (_norm (some nm)) = none) →
      _mark_required_empty_columns w hidx s l = w) := by
  obtain ⟨hval, hother, hhead⟩ := markFold_getCell hidx hpos s l REQUIRED_DGAV_COLS w
  refine ⟨fun c hc => hhead c hc, fun r c hr => hother r c hr, fun j => ?_, fun hnone => ?_⟩
  · unfold anyEmptyInCol
    rw [List.any_eq_true]
    constructor
    · rintro ⟨r, hmem, hprop⟩
      have := List.mem_range'_1.mp hmem
      exact ⟨r, by omega, by omega, hprop⟩
    · rintro ⟨r, hs, hl, hprop⟩
      exact ⟨r, List.mem_range'_1.mpr ⟨hs, by omega⟩, hprop⟩
  · unfold _mark_required_empty_columns
    have : ∀ (names : List String), (∀ nm ∈ names, dget hidx (_norm (some nm)) = none) →
        names.foldl (markStep hidx s l) w = w := by
      intro names
      induction names with
      | nil => intro _; rfl
      | cons nm names ih =>
        intro hn
        rw [List.foldl_cons]
        have hstep : markStep hidx s l w nm = w := by
          unfold markStep
          rw [hn nm (List.mem_cons_self nm names)]
        rw [hstep]
        exact ih (fun nm' hm => hn nm' (List.mem_cons_of_mem _ hm))
    exact this REQUIRED_DGAV_COLS hnone

/-- C9 (witness): the characterisation evaluated on `tplSmall` for column 1
over rows `2..3`. -/
theorem c9_required_field_flagging_witness :
    (_mark_required_empty_columns tplSmall (_build_header_index tplSmall) 2 3).getCell 1 1 =
      if ∃ nm ∈ REQUIRED_DGAV_COLS,
           dget (_build_header_index tplSmall) (_norm (some nm)) = some 1 ∧
           anyEmptyInCol tplSmall 1 2 3 = true
      then { tplSmall.getCell 1 1 with fill := some redFill } else tplSmall.getCell 1 1 :=
  (c9_required_field_flagging tplSmall (_build_header_index tplSmall) (by decide) 2 3).1
    1 (by decide)

/-! ### Running the pipeline -/

theorem process_run_some (tpl : Ws) (grid : List (List Cell)) (headers : List Cell)
    (dataRows : List (List Cell))
    (hload : _load_pre_registo_df grid = some (headers, dataRows))
    (hnr : writeRaises tpl headers dataRows.length = false) :
    process_pre_to_dgav true tpl grid =
      .ok (convertBody tpl headers dataRows,
        "Foram processadas " ++ toString dataRows.length ++ " amostras.") := by
  unfold process_pre_to_dgav
  rw [hload]
  simp [hnr]

theorem process_run_raise (tpl : Ws) (grid : List (List Cell)) (headers : List Cell)
    (dataRows : List (List Cell))
    (hload : _load_pre_registo_df grid = some (headers, dataRows))
    (hr : writeRaises tpl headers dataRows.length = true) :
    process_pre_to_dgav true tpl grid = .error .valueError := by
  unfold process_pre_to_dgav
  rw [hload]
  simp [hr]

theorem process_run_none (tpl : Ws) (grid : List (List Cell))
    (hload : _load_pre_registo_df grid = none) :
    process_pre_to_dgav true tpl grid = .error .headerNotFound := by
  unfold process_pre_to_dgav
  rw [hload]
  rfl

theorem load_some_of_header (grid : List (List Cell)) (h : Nat)
    (hh : _find_header_row grid anchor_label = some h) :
    _load_pre_registo_df grid = some (grid.getD h [], selectRecordsAfter grid h) := by
  unfold _load_pre_registo_df
  rw [hh]

theorem load_none_of_no_header (grid : List (List Cell))
    (hh : _find_header_row grid anchor_label = none) :
    _load_pre_registo_df grid = none := by
  unfold _load_pre_registo_df
  rw [hh]

/-- C6 (counterexample): in `gridDup` the header row repeats the anchor
label verbatim; the template exists and the header row IS found, yet the
conversion aborts: `row_in.get` on the duplicated key label returns a
two-column pandas Series and the openpyxl write raises `ValueError` — an
abort that is neither `templateMissing` nor `headerNotFound`, refuting
"raises an error if and only if the template is missing or no header row is
found". -/
theorem c6_error_semantics_cex :
    _find_header_row gridDup anchor_label = some 0 ∧
    process_pre_to_dgav true tplSmall gridDup = .error .valueError ∧
    (PErr.valueError ≠ .templateMissing ∧ PErr.valueError ≠ .headerNotFound) ∧
    ¬ ∃ out msg, process_pre_to_dgav true tplSmall gridDup = .ok (out, msg) := by
  refine ⟨by decide, by rfl, by decide, ?_⟩
  rintro ⟨out, msg, hok⟩
  rw [show process_pre_to_dgav true tplSmall gridDup = .error .valueError from by rfl]
    at hok
  cases hok

/-- C6 (amended): a missing template fails first with `templateMissing`; with
the template present, a grid without a header row fails with
`headerNotFound`; with a header row found, the conversion additionally
aborts with the uncaught openpyxl `ValueError` exactly when at least one
record is written and some mapped column's resolved input label is
duplicated verbatim among the headers (`writeRaises`); in every remaining
case the full pipeline completes and returns the document with the count
message, and no partial result is ever paired with success. -/
theorem c6_error_semantics_amended (templateExists : Bool) (tpl : Ws)
    (grid : List (List Cell)) :
    ((∃ out msg, process_pre_to_dgav templateExists tpl grid = .ok (out, msg)) ↔
      templateExists = true ∧
      ∃ h, _find_header_row grid anchor_label = some h ∧
        writeRaises tpl (grid.getD h []) (selectRecordsAfter grid h).length = false) ∧
    (templateExists = false →
      process_pre_to_dgav templateExists tpl grid = .error .templateMissing) ∧
    (templateExists = true → _find_header_row grid anchor_label = none →
      process_pre_to_dgav templateExists tpl grid = .error .headerNotFound) ∧
    (∀ h, templateExists = true → _find_header_row grid anchor_label = some h →
      writeRaises tpl (grid.getD h []) (selectRecordsAfter grid h).length = true →
      process_pre_to_dgav templateExists tpl grid = .error .valueError) ∧
    (∀ h, templateExists = true → _find_header_row grid anchor_label = some h →
      writeRaises tpl (grid.getD h []) (selectRecordsAfter grid h).length = false →
      process_pre_to_dgav templateExists tpl grid =
        .ok (convertBody tpl (grid.getD h []) (selectRecordsAfter grid h),
          "Foram processadas " ++ toString (selectRecordsAfter grid h).length
            ++ " amostras.")) := by
  cases templateExists with
  | false =>
    refine ⟨⟨?_, ?_⟩, fun _ => rfl, ?_, ?_, ?_⟩
    · rintro ⟨out, msg, hok⟩
      rw [show process_pre_to_dgav false tpl grid = .error .templateMissing from rfl] at hok
      cases hok
    · rintro ⟨hte, -⟩
      cases hte
    · intro hte
      cases hte
    · intro h hte
      cases hte
    · intro h hte
      cases hte
  | true =>
    cases hh : _find_header_row grid anchor_label with
    | none =>
      have hrun := process_run_none tpl grid (load_none_of_no_header grid hh)
      refine ⟨⟨?_, ?_⟩, ?_, fun _ _ => hrun, ?_, ?_⟩
      · rintro ⟨out, msg, hok⟩
        rw [hrun] at hok
        cases hok
      · rintro ⟨-, h, hsome, -⟩
        cases hsome
      · intro hte
        cases hte
      · intro h _ hsome
        cases hsome
      · intro h _ hsome
        cases hsome
    | some h0 =>
      have hload := load_some_of_header grid h0 hh
      cases hr : writeRaises tpl (grid.getD h0 [])
          (selectRecordsAfter grid h0).length with
      | true =>
        have hrun := process_run_raise tpl grid _ _ hload hr
        refine ⟨⟨?_, ?_⟩, ?_, ?_, ?_, ?_⟩
        · rintro ⟨out, msg, hok⟩
          rw [hrun] at hok
          cases hok
        · rintro ⟨-, h, hsome, hnr⟩
          have hh0 : h0 = h := Option.some.inj hsome
          subst hh0
          rw [hnr] at hr
          cases hr
        · intro hte
          cases hte
        · intro _ hnone
          cases hnone
        · intro h _ hsome hr2
          have hh0 : h0 = h := Option.some.inj hsome
          subst hh0
          exact hrun
        · intro h _ hsome hnr
          have hh0 : h0 = h := Option.some.inj hsome
          subst hh0
          rw [hnr] at hr
          cases hr
      | false =>
        have hrun := process_run_some tpl grid _ _ hload hr
        refine ⟨⟨fun _ => ⟨rfl, h0, rfl, hr⟩, fun _ => ⟨_, _, hrun⟩⟩, ?_, ?_, ?_, ?_⟩
        · intro hte
          cases hte
        · intro _ hnone
          cases hnone
        · intro h _ hsome hr2
          have hh0 : h0 = h := Option.some.inj hsome
          subst hh0
          rw [hr2] at hr
          cases hr
        · intro h _ hsome hnr
          have hh0 : h0 = h := Option.some.inj hsome
          subst hh0
          exact hrun

/-- C6 (witness for the amended theorem): the three terminal behaviours at
concrete inputs — `templateMissing` on `gridSmall` without the template,
`valueError` on the duplicated-header `gridDup`, and a successful conversion
of `gridSmall` with the three-sample message. -/
theorem c6_error_semantics_amended_witness :
    process_pre_to_dgav false tplSmall gridSmall = .error .templateMissing ∧
    process_pre_to_dgav true tplSmall gridDup = .error .valueError ∧
    process_pre_to_dgav true tplSmall gridSmall =
      .ok (convertBody tplSmall (gridSmall.getD 1 []) (selectRecordsAfter gridSmall 1),
        "Foram processadas " ++ toString (selectRecordsAfter gridSmall 1).length
          ++ " amostras.") :=
  ⟨(c6_error_semantics_amended false tplSmall gridSmall).2.1 rfl,
   (c6_error_semantics_amended true tplSmall gridDup).2.2.2.1 0 rfl (by decide) (by decide),
   (c6_error_semantics_amended true tplSmall gridSmall).2.2.2.2 1 rfl (by decide) (by decide)⟩

/-! ### Structural preservation through the pipeline -/

theorem foldl_pres {σ α β : Type} (P : σ → β) (g : σ → α → σ)
    (hg : ∀ s a, P (g s a) = P s) : ∀ (l : List α) (s : σ), P (l.foldl g s) = P s
  | [], s => rfl
  | a :: l, s => by rw [List.foldl_cons, foldl_pres P g hg l, hg]

theorem markStep_eq_none (hidx : List (String × Nat)) (s l : Nat) (w : Ws) (nm : String)
    (hd : dget hidx (_norm (some nm)) = none) : markStep hidx s l w nm = w := by
  unfold markStep
  rw [hd]

theorem markStep_eq_some (hidx : List (String × Nat)) (s l : Nat) (w : Ws) (nm : String)
    (j : Nat) (hd : dget hidx (_norm (some nm)) = some j) :
    markStep hidx s l w nm =
      if anyEmptyInCol w j s l then
        w.setCellF 1 j (fun cd => { cd with fill := some redFill }) else w := by
  unfold markStep
  rw [hd]

theorem dvs_markStep (hidx : List (String × Nat)) (s l : Nat) (w : Ws) (nm : String) :
    (markStep hidx s l w nm).dvs = w.dvs := by
  cases hd : dget hidx (_norm (some nm)) with
  | none => rw [markStep_eq_none hidx s l w nm hd]
  | some j =>
    rw [markStep_eq_some hidx s l w nm j hd]
    by_cases hae : anyEmptyInCol w j s l
    · rw [if_pos hae]
      rfl
    · rw [if_neg hae]

theorem tables_markStep (hidx : List (String × Nat)) (s l : Nat) (w : Ws) (nm : String) :
    (markStep hidx s l w nm).tables = w.tables := by
  cases hd : dget hidx (_norm (some nm)) with
  | none => rw [markStep_eq_none hidx s l w nm hd]
  | some j =>
    rw [markStep_eq_some hidx s l w nm j hd]
    by_cases hae : anyEmptyInCol w j s l
    · rw [if_pos hae]
      rfl
    · rw [if_neg hae]

theorem dvs_mark (w : Ws) (hidx : List (String × Nat)) (s l : Nat) :
    (_mark_required_empty_columns w hidx s l).dvs = w.dvs :=
  foldl_pres Ws.dvs (markStep hidx s l) (fun w nm => dvs_markStep hidx s l w nm)
    REQUIRED_DGAV_COLS w

theorem tables_mark (w : Ws) (hidx : List (String × Nat)) (s l : Nat) :
    (_mark_required_empty_columns w hidx s l).tables = w.tables :=
  foldl_pres Ws.tables (markStep hidx s l) (fun w nm => tables_markStep hidx s l w nm)
    REQUIRED_DGAV_COLS w

theorem dvs_writeRowDefaults (w : Ws) (hidx : List (String × Nat))
    (base : List (String × Cell)) (er : Nat) :
    (writeRowDefaults w hidx base er).dvs = w.dvs := by
  unfold writeRowDefaults
  exact foldl_pres Ws.dvs
    (fun acc p => acc.setVal er p.2 ((dget base p.1).getD Cell.nullc))
    (fun w p => rfl) hidx w

theorem tables_writeRowDefaults (w : Ws) (hidx : List (String × Nat))
    (base : List (String × Cell)) (er : Nat) :
    (writeRowDefaults w hidx base er).tables = w.tables := by
  unfold writeRowDefaults
  exact foldl_pres Ws.tables
    (fun acc p => acc.setVal er p.2 ((dget base p.1).getD Cell.nullc))
    (fun w p => rfl) hidx w

theorem wrmStep_eq_skip (hidx : List (String × Nat)) (colmap : List (String × Option Cell)) (headers : List Cell)
    (rowIn : List Cell) (er : Nat) (acc : Ws) (q : String × String)
    (hd : dget hidx (_norm (some q.1)) = none) :
    wrmStep hidx colmap headers rowIn er acc q = acc := by
  unfold wrmStep
  rw [hd]

theorem wrmStep_eq_nocol (hidx : List (String × Nat)) (colmap : List (String × Option Cell)) (headers : List Cell)
    (rowIn : List Cell) (er : Nat) (acc : Ws) (q : String × String) (j : Nat)
    (hd : dget hidx (_norm (some q.1)) = some j) (hc : dget colmap q.1 = none) :
    wrmStep hidx colmap headers rowIn er acc q = acc := by
  unfold wrmStep
  rw [hd, hc]

theorem wrmStep_eq_unmapped (hidx : List (String × Nat))
    (colmap : List (String × Option Cell)) (headers : List Cell) (rowIn : List Cell) (er : Nat) (acc : Ws)
    (q : String × String) (j : Nat)
    (hd : dget hidx (_norm (some q.1)) = some j) (hc : dget colmap q.1 = some none) :
    wrmStep hidx colmap headers rowIn er acc q = acc := by
  unfold wrmStep
  rw [hd, hc]

theorem wrmStep_eq_falsy (hidx : List (String × Nat))
    (colmap : List (String × Option Cell)) (headers : List Cell) (rowIn : List Cell)
    (er : Nat) (acc : Ws) (q : String × String) (j : Nat) (lbl : Cell)
    (hd : dget hidx (_norm (some q.1)) = some j)
    (hc : dget colmap q.1 = some (some lbl)) (ht : cellTruthy lbl = false) :
    wrmStep hidx colmap headers rowIn er acc q = acc := by
  unfold wrmStep
  rw [hd, hc]
  simp [ht]

theorem wrmStep_eq_series (hidx : List (String × Nat))
    (colmap : List (String × Option Cell)) (headers : List Cell) (rowIn : List Cell)
    (er : Nat) (acc : Ws) (q : String × String) (j : Nat) (lbl : Cell)
    (hd : dget hidx (_norm (some q.1)) = some j)
    (hc : dget colmap q.1 = some (some lbl)) (ht : cellTruthy lbl = true)
    (hp : pandasRowGet headers rowIn lbl = none) :
    wrmStep hidx colmap headers rowIn er acc q = acc := by
  unfold wrmStep
  rw [hd, hc]
  simp [ht, hp]

theorem wrmStep_eq_write (hidx : List (String × Nat))
    (colmap : List (String × Option Cell)) (headers : List Cell) (rowIn : List Cell)
    (er : Nat) (acc : Ws) (q : String × String) (j : Nat) (lbl v : Cell)
    (hd : dget hidx (_norm (some q.1)) = some j)
    (hc : dget colmap q.1 = some (some lbl)) (ht : cellTruthy lbl = true)
    (hp : pandasRowGet headers rowIn lbl = some v) :
    wrmStep hidx colmap headers rowIn er acc q =
      acc.setVal er j (transformVal v) := by
  unfold wrmStep
  rw [hd, hc]
  simp [ht, hp]

theorem wrmStep_cases (hidx : List (String × Nat)) (colmap : List (String × Option Cell)) (headers : List Cell)
    (rowIn : List Cell) (er : Nat) (acc : Ws) (q : String × String) :
    wrmStep hidx colmap headers rowIn er acc q = acc ∨
    ∃ j lbl v, dget hidx (_norm (some q.1)) = some j ∧
      dget colmap q.1 = some (some lbl) ∧
      wrmStep hidx colmap headers rowIn er acc q =
        acc.setVal er j (transformVal v) := by
  cases hd : dget hidx (_norm (some q.1)) with
  | none => exact Or.inl (wrmStep_eq_skip _ _ _ _ _ _ _ hd)
  | some j =>
    cases hc : dget colmap q.1 with
    | none => exact Or.inl (wrmStep_eq_nocol _ _ _ _ _ _ _ j hd hc)
    | some o =>
      cases o with
      | none => exact Or.inl (wrmStep_eq_unmapped _ _ _ _ _ _ _ j hd hc)
      | some lbl =>
        cases ht : cellTruthy lbl with
        | false =>
          exact Or.inl (wrmStep_eq_falsy _ _ _ _ _ _ _ j lbl hd hc ht)
        | true =>
          cases hp : pandasRowGet headers rowIn lbl with
          | none =>
            exact Or.inl (wrmStep_eq_series _ _ _ _ _ _ _ j lbl hd hc ht hp)
          | some v =>
            exact Or.inr ⟨j, lbl, v, rfl, rfl,
              wrmStep_eq_write _ _ _ _ _ _ _ j lbl v hd hc ht hp⟩

theorem dvs_wrmStep (hidx : List (String × Nat)) (colmap : List (String × Option Cell)) (headers : List Cell)
    (rowIn : List Cell) (er : Nat) (acc : Ws) (q : String × String) :
    (wrmStep hidx colmap headers rowIn er acc q).dvs = acc.dvs := by
  rcases wrmStep_cases hidx colmap headers rowIn er acc q with h | ⟨j, lbl, v, -, -, h⟩
  · rw [h]
  · rw [h]
    rfl

theorem tables_wrmStep (hidx : List (String × Nat)) (colmap : List (String × Option Cell)) (headers : List Cell)
    (rowIn : List Cell) (er : Nat) (acc : Ws) (q : String × String) :
    (wrmStep hidx colmap headers rowIn er acc q).tables = acc.tables := by
  rcases wrmStep_cases hidx colmap headers rowIn er acc q with h | ⟨j, lbl, v, -, -, h⟩
  · rw [h]
  · rw [h]
    rfl

theorem dvs_writeRowMapped (w : Ws) (hidx : List (String × Nat))
    (colmap : List (String × Option Cell)) (headers : List Cell) (rowIn : List Cell) (er : Nat) :
    (writeRowMapped w hidx colmap headers rowIn er).dvs = w.dvs := by
  unfold writeRowMapped
  exact foldl_pres Ws.dvs _ (fun acc q => dvs_wrmStep hidx colmap headers rowIn er acc q)
    INPUT_TO_DGAV_COLMAP w

theorem tables_writeRowMapped (w : Ws) (hidx : List (String × Nat))
    (colmap : List (String × Option Cell)) (headers : List Cell) (rowIn : List Cell) (er : Nat) :
    (writeRowMapped w hidx colmap headers rowIn er).tables = w.tables := by
  unfold writeRowMapped
  exact foldl_pres Ws.tables _ (fun acc q => tables_wrmStep hidx colmap headers rowIn er acc q)
    INPUT_TO_DGAV_COLMAP w

theorem dvs_writeAllRows (w : Ws) (hidx : List (String × Nat))
    (base : List (String × Cell)) (colmap : List (String × Option Cell)) (headers : List Cell)
    (dataRows : List (List Cell)) :
    (writeAllRows w hidx base colmap headers dataRows).dvs = w.dvs := by
  unfold writeAllRows
  refine foldl_pres Ws.dvs _ (fun w p => ?_) dataRows.enum w
  unfold rowStep
  rw [dvs_writeRowMapped, dvs_writeRowDefaults]

theorem tables_writeAllRows (w : Ws) (hidx : List (String × Nat))
    (base : List (String × Cell)) (colmap : List (String × Option Cell)) (headers : List Cell)
    (dataRows : List (List Cell)) :
    (writeAllRows w hidx base colmap headers dataRows).tables = w.tables := by
  unfold writeAllRows
  refine foldl_pres Ws.tables _ (fun w p => ?_) dataRows.enum w
  unfold rowStep
  rw [tables_writeRowMapped, tables_writeRowDefaults]

theorem dvs_clearedTpl (tpl : Ws) : (clearedTpl tpl).dvs = tpl.dvs := by
  unfold clearedTpl
  split <;> rfl

theorem tables_clearedTpl (tpl : Ws) : (clearedTpl tpl).tables = tpl.tables := by
  unfold clearedTpl
  split <;> rfl

theorem dvs_trimmedWs (tpl : Ws) (headers : List Cell) (dataRows : List (List Cell)) :
    (trimmedWs tpl headers dataRows).dvs = tpl.dvs := by
  have hm : (markedWs tpl headers dataRows).dvs = tpl.dvs := by
    unfold markedWs
    split
    · rw [dvs_mark]
      unfold writtenWs
      rw [dvs_writeAllRows, dvs_clearedTpl]
    · unfold writtenWs
      rw [dvs_writeAllRows, dvs_clearedTpl]
  unfold trimmedWs
  split
  · rw [dvs_deleteRows, hm]
  · exact hm

theorem tables_trimmedWs (tpl : Ws) (headers : List Cell) (dataRows : List (List Cell)) :
    (trimmedWs tpl headers dataRows).tables = tpl.tables := by
  have hm : (markedWs tpl headers dataRows).tables = tpl.tables := by
    unfold markedWs
    split
    · rw [tables_mark]
      unfold writtenWs
      rw [tables_writeAllRows, tables_clearedTpl]
    · unfold writtenWs
      rw [tables_writeAllRows, tables_clearedTpl]
  unfold trimmedWs
  split
  · rw [tables_deleteRows, hm]
  · exact hm

theorem dvs_convertBody (tpl : Ws) (headers : List Cell) (dataRows : List (List Cell)) :
    (convertBody tpl headers dataRows).dvs = tpl.dvs := by
  unfold convertBody
  exact dvs_trimmedWs tpl headers dataRows

theorem tables_convertBody (tpl : Ws) (headers : List Cell)
    (dataRows : List (List Cell)) :
    (convertBody tpl headers dataRows).tables =
      tpl.tables.map (fun t => { t with endRowN := lastRowOf dataRows.length }) := by
  unfold convertBody
  rw [tables_trimmedWs]

/-- Inversion of a successful conversion: the template existed, the header
was found, and the result is `convertBody` plus the count message. -/
theorem process_ok_inv (templateExists : Bool) (tpl : Ws) (grid : List (List Cell))
    (out : Ws) (msg : String)
    (hok : process_pre_to_dgav templateExists tpl grid = .ok (out, msg)) :
    ∃ headers dataRows, _load_pre_registo_df grid = some (headers, dataRows) ∧
      out = convertBody tpl headers dataRows ∧
      msg = "Foram processadas " ++ toString dataRows.length ++ " amostras." := by
  cases templateExists with
  | false =>
    rw [show process_pre_to_dgav false tpl grid = .error .templateMissing from rfl] at hok
    cases hok
  | true =>
    cases hload : _load_pre_registo_df grid with
    | none =>
      rw [process_run_none tpl grid hload] at hok
      cases hok
    | some pr =>
      rcases pr with ⟨headers, dataRows⟩
      cases hr : writeRaises tpl headers dataRows.length with
      | true =>
        rw [process_run_raise tpl grid headers dataRows hload hr] at hok
        cases hok
      | false =>
        rw [process_run_some tpl grid headers dataRows hload hr] at hok
        injection hok with hpair
        injection hpair with h1 h2
        exact ⟨headers, dataRows, rfl, h1.symm, h2.symm⟩

/-- C3 (counterexample): converting `gridSmall` (three selected records, so
the claim requires every value-list range to be rewritten to rows `2..4`)
leaves the template's validation range `B2:B9` untouched. -/
theorem c3_validation_resize_cex :
    (process_pre_to_dgav true tplSmall gridSmall).toOption.map (fun p => p.1.dvs) =
      some [Dv.mk "B" 2 9] ∧
    (selectRecordsAfter gridSmall 1).length = 3 ∧
    Dv.mk "B" 2 9 ≠ Dv.mk "B" 2 (3 + 1) := by
  decide

/-- C3 (amended): the conversion never rewrites value-list validation
constraints at all — the output's validation ranges are exactly the
template's (only table refs are resized). -/
theorem c3_validation_ranges_unchanged (templateExists : Bool) (tpl : Ws)
    (grid : List (List Cell)) (out : Ws) (msg : String)
    (hok : process_pre_to_dgav templateExists tpl grid = .ok (out, msg)) :
    out.dvs = tpl.dvs := by
  obtain ⟨headers, dataRows, -, hout, -⟩ :=
    process_ok_inv templateExists tpl grid out msg hok
  rw [hout, dvs_convertBody]

/-- C3 (witness for the amended theorem), on `tplSmall`/`gridSmall`. -/
theorem c3_validation_ranges_unchanged_witness :
    (convertBody tplSmall (gridSmall.getD 1 []) (selectRecordsAfter gridSmall 1)).dvs =
      tplSmall.dvs :=
  c3_validation_ranges_unchanged true tplSmall gridSmall
    (convertBody tplSmall (gridSmall.getD 1 []) (selectRecordsAfter gridSmall 1))
    "Foram processadas 3 amostras." (by rfl)

/-! ### Row count at the zero-record boundary -/

theorem maxRow_clearedTpl (tpl : Ws) (htpl : 1 ≤ tpl.maxRow) :
    (clearedTpl tpl).maxRow = 1 := by
  unfold clearedTpl
  by_cases h : tpl.maxRow > 1
  · rw [if_pos h]
    show (tpl.rows.take 1 ++ tpl.rows.drop (1 + (tpl.maxRow - 1))).length = 1
    rw [List.length_append, List.length_take, List.length_drop]
    unfold Ws.maxRow at htpl h ⊢
    omega
  · rw [if_neg h]
    unfold Ws.maxRow at htpl h ⊢
    omega

theorem rows_len_convertBody_nil (tpl : Ws) (headers : List Cell)
    (htpl : 1 ≤ tpl.maxRow) :
    (convertBody tpl headers []).rows.length = 1 := by
  have hm : markedWs tpl headers [] = clearedTpl tpl := by
    unfold markedWs
    rw [if_neg (by simp)]
    rfl
  have hmr : (markedWs tpl headers []).maxRow = 1 := by
    rw [hm]
    exact maxRow_clearedTpl tpl htpl
  have ht : trimmedWs tpl headers [] = markedWs tpl headers [] := by
    unfold trimmedWs
    rw [if_neg]
    rw [hmr]
    simp [lastRowOf]
  show (trimmedWs tpl headers []).rows.length = 1
  rw [ht, hm]
  exact maxRow_clearedTpl tpl htpl

/-- C5 (counterexample): converting a zero-record input against `tplSmall`
does collapse the rows (header only) and the table ref (`A1:B1`), but the
value-list validation range stays `B2:B9` — a stale multi-row structural
range, contradicting "all structural ranges collapsed to a single-row
extent". -/
theorem c5_zero_record_cex :
    (process_pre_to_dgav true tplSmall gridEmpty).toOption.map
        (fun p => (p.1.rows.length, p.1.tables, p.1.dvs)) =
      some (1, [Tbl.mk "A" 1 "B" 1], [Dv.mk "B" 2 9]) ∧
    (Dv.mk "B" 2 9).lastRowN ≠ (Dv.mk "B" 2 9).firstRowN := by
  decide

/-- C5 (amended): every declared table extent is rewritten to end exactly at
`last_row` (`N + 1`, or `1` when `N = 0`, keeping its declared start row —
the header row in the reference template); with zero selected records the
output document holds only the header row and the table refs collapse to a
single row; value-list validation ranges, however, keep their template
extent and are not collapsed. -/
theorem c5_structural_ranges_amended (templateExists : Bool) (tpl : Ws)
    (grid : List (List Cell)) (out : Ws) (msg : String)
    (hok : process_pre_to_dgav templateExists tpl grid = .ok (out, msg))
    (htpl : 1 ≤ tpl.maxRow) :
    ∃ headers dataRows,
      _load_pre_registo_df grid = some (headers, dataRows) ∧
      out.tables = tpl.tables.map
        (fun t => { t with endRowN := lastRowOf dataRows.length }) ∧
      out.dvs = tpl.dvs ∧
      (dataRows = [] → out.rows.length = 1) := by
  obtain ⟨headers, dataRows, hload, hout, -⟩ :=
    process_ok_inv templateExists tpl grid out msg hok
  refine ⟨headers, dataRows, hload, ?_, ?_, ?_⟩
  · rw [hout, tables_convertBody]
  · rw [hout, dvs_convertBody]
  · rintro rfl
    rw [hout]
    exact rows_len_convertBody_nil tpl headers htpl

/-- C5 (witness for the amended theorem), on the zero-record `gridEmpty`. -/
theorem c5_structural_ranges_amended_witness :
    ∃ headers dataRows,
      _load_pre_registo_df gridEmpty = some (headers, dataRows) ∧
      (convertBody tplSmall (gridEmpty.getD 0 [])
          (selectRecordsAfter gridEmpty 0)).tables =
        tplSmall.tables.map
          (fun t => { t with endRowN := lastRowOf dataRows.length }) ∧
      (convertBody tplSmall (gridEmpty.getD 0 [])
          (selectRecordsAfter gridEmpty 0)).dvs = tplSmall.dvs ∧
      (dataRows = [] →
        (convertBody tplSmall (gridEmpty.getD 0 [])
          (selectRecordsAfter gridEmpty 0)).rows.length = 1) :=
  c5_structural_ranges_amended true tplSmall gridEmpty
    (convertBody tplSmall (gridEmpty.getD 0 []) (selectRecordsAfter gridEmpty 0))
    "Foram processadas 0 amostras." (by rfl) (by decide)

/-! ### Invariants of `_build_header_index` -/

theorem dinsert_mem {α : Type} (l : List (String × α)) (k : String) (v : α)
    (q : String × α) (hq : q ∈ dinsert l k v) : q = (k, v) ∨ q ∈ l := by
  unfold dinsert at hq
  split at hq
  · rcases List.mem_map.mp hq with ⟨p, hp, hpe⟩
    by_cases hk : p.1 == k
    · rw [if_pos hk] at hpe
      exact Or.inl hpe.symm
    · rw [if_neg hk] at hpe
      exact Or.inr (hpe ▸ hp)
  · rcases List.mem_append.mp hq with h | h
    · exact Or.inr h
    · simp at h
      exact Or.inl h

theorem bhi_fold_inv (w : Ws) :
    ∀ (cols : List Nat) (acc : List (String × Nat)),
      cols.Pairwise (· < ·) →
      (∀ c ∈ cols, 1 ≤ c) →
      (∀ p ∈ acc, 1 ≤ p.2 ∧ ∀ c ∈ cols, p.2 < c) →
      (∀ p q, p ∈ acc → q ∈ acc → p.2 = q.2 → p = q) →
      (∀ p ∈ cols.foldl (bhiStep w) acc, 1 ≤ p.2) ∧
      (∀ p q, p ∈ cols.foldl (bhiStep w) acc → q ∈ cols.foldl (bhiStep w) acc →
        p.2 = q.2 → p = q)
  | [], acc => fun _ _ hacc hinj =>
      ⟨fun p hp => (hacc p hp).1, hinj⟩
  | c :: rest, acc => by
    intro hpw hcols hacc hinj
    rw [List.foldl_cons]
    have hcr : ∀ c' ∈ rest, c < c' := (List.pairwise_cons.mp hpw).1
    have hmem : ∀ p ∈ bhiStep w acc c, p = (_normCell (w.getCell 1 c).value, c) ∨ p ∈ acc := by
      intro p hp
      unfold bhiStep at hp
      split at hp
      · exact dinsert_mem acc _ c p hp
      · exact Or.inr hp
    refine bhi_fold_inv w rest (bhiStep w acc c)
      (List.pairwise_cons.mp hpw).2
      (fun c' hc' => hcols c' (List.mem_cons_of_mem _ hc'))
      (fun p hp => ?_) (fun p q hp hq hpq => ?_)
    · rcases hmem p hp with rfl | hp'
      · exact ⟨hcols c (List.mem_cons_self c rest), fun c' hc' => hcr c' hc'⟩
      · obtain ⟨h1, h2⟩ := hacc p hp'
        exact ⟨h1, fun c' hc' => h2 c' (List.mem_cons_of_mem _ hc')⟩
    · rcases hmem p hp with rfl | hp' <;> rcases hmem q hq with h | hq'
      · rw [h]
      · obtain ⟨-, h2⟩ := hacc q hq'
        have := h2 c (List.mem_cons_self c rest)
        omega
      · subst h
        obtain ⟨-, h2⟩ := hacc p hp'
        have := h2 c (List.mem_cons_self c rest)
        omega
      · exact hinj p q hp' hq' hpq

theorem bhi_pos (w : Ws) : ∀ p ∈ _build_header_index w, 1 ≤ p.2 := by
  have h := bhi_fold_inv w (List.range' 1 w.maxCol) []
    (List.pairwise_lt_range' 1 w.maxCol)
    (fun c hc => (List.mem_range'_1.mp hc).1)
    (fun p hp => absurd hp (List.not_mem_nil p))
    (fun p q hp => absurd hp (List.not_mem_nil p))
  exact h.1

theorem bhi_inj (w : Ws) :
    ∀ p q, p ∈ _build_header_index w → q ∈ _build_header_index w → p.2 = q.2 → p = q := by
  have h := bhi_fold_inv w (List.range' 1 w.maxCol) []
    (List.pairwise_lt_range' 1 w.maxCol)
    (fun c hc => (List.mem_range'_1.mp hc).1)
    (fun p hp => absurd hp (List.not_mem_nil p))
    (fun p q hp => absurd hp (List.not_mem_nil p))
  exact h.2

/-! ### `max_row` through the pipeline -/

theorem maxRow_setVal (w : Ws) (r c : Nat) (v : Cell) :
    (w.setVal r c v).maxRow = max w.maxRow r :=
  maxRow_setCellF w r c _

theorem maxRow_writeRowDefaults (w : Ws) (hidx : List (String × Nat))
    (base : List (String × Cell)) (er : Nat) :
    (writeRowDefaults w hidx base er).maxRow =
      if hidx.isEmpty then w.maxRow else max w.maxRow er := by
  unfold writeRowDefaults
  induction hidx generalizing w with
  | nil => simp
  | cons p t ih =>
    rw [List.foldl_cons, ih]
    cases t with
    | nil => simp [maxRow_setVal]
    | cons p' t' =>
      simp only [List.isEmpty_cons, if_neg]
      rw [maxRow_setVal]
      simp

theorem maxRow_writeRowMapped_bounds (w : Ws) (hidx : List (String × Nat))
    (colmap : List (String × Option Cell)) (headers : List Cell) (rowIn : List Cell) (er : Nat) :
    w.maxRow ≤ (writeRowMapped w hidx colmap headers rowIn er).maxRow ∧
    (writeRowMapped w hidx colmap headers rowIn er).maxRow ≤ max w.maxRow er := by
  unfold writeRowMapped
  suffices h : ∀ (l : List (String × String)) (w : Ws),
      w.maxRow ≤ (l.foldl (wrmStep hidx colmap headers rowIn er) w).maxRow ∧
      (l.foldl (wrmStep hidx colmap headers rowIn er) w).maxRow ≤ max w.maxRow er from
    h INPUT_TO_DGAV_COLMAP w
  intro l
  induction l with
  | nil => exact fun w => ⟨Nat.le_refl _, Nat.le_max_left _ _⟩
  | cons q t ih =>
    intro w
    rw [List.foldl_cons]
    have hstep : w.maxRow ≤ (wrmStep hidx colmap headers rowIn er w q).maxRow ∧
        (wrmStep hidx colmap headers rowIn er w q).maxRow ≤ max w.maxRow er := by
      rcases wrmStep_cases hidx colmap headers rowIn er w q with h | ⟨j, lbl, v, -, -, h⟩
      · rw [h]
        exact ⟨Nat.le_refl _, Nat.le_max_left _ _⟩
      · rw [h, maxRow_setVal]
        exact ⟨Nat.le_max_left _ _, Nat.le_refl _⟩
    obtain ⟨ih1, ih2⟩ := ih (wrmStep hidx colmap headers rowIn er w q)
    exact ⟨Nat.le_trans hstep.1 ih1, Nat.le_trans ih2 (by omega)⟩

theorem maxRow_rowStep (hidx : List (String × Nat)) (base : List (String × Cell))
    (colmap : List (String × Option Cell)) (headers : List Cell) (w : Ws) (p : Nat × List Cell)
    (hne : hidx ≠ []) (hw : w.maxRow ≤ 2 + p.1) :
    (rowStep hidx base colmap headers w p).maxRow = 2 + p.1 := by
  unfold rowStep
  have hd : (writeRowDefaults w hidx base (2 + p.1)).maxRow = 2 + p.1 := by
    rw [maxRow_writeRowDefaults, if_neg (by simpa using hne)]
    omega
  obtain ⟨h1, h2⟩ := maxRow_writeRowMapped_bounds (writeRowDefaults w hidx base (2 + p.1))
    hidx colmap headers p.2 (2 + p.1)
  rw [hd] at h1 h2
  omega

theorem maxRow_rowStep_le (hidx : List (String × Nat)) (base : List (String × Cell))
    (colmap : List (String × Option Cell)) (headers : List Cell) (w : Ws) (p : Nat × List Cell) :
    w.maxRow ≤ (rowStep hidx base colmap headers w p).maxRow ∧
    (rowStep hidx base colmap headers w p).maxRow ≤ max w.maxRow (2 + p.1) := by
  unfold rowStep
  obtain ⟨h1, h2⟩ := maxRow_writeRowMapped_bounds (writeRowDefaults w hidx base (2 + p.1))
    hidx colmap headers p.2 (2 + p.1)
  rw [maxRow_writeRowDefaults] at h1 h2
  by_cases he : hidx.isEmpty
  · rw [if_pos he] at h1 h2
    exact ⟨h1, by omega⟩
  · rw [if_neg he] at h1 h2
    refine ⟨Nat.le_trans (Nat.le_max_left _ _) h1, by omega⟩

theorem maxRow_writeRows_from (hidx : List (String × Nat)) (base : List (String × Cell))
    (colmap : List (String × Option Cell)) (headers : List Cell) (hne : hidx ≠ []) :
    ∀ (dataRows : List (List Cell)) (k : Nat) (w : Ws), dataRows ≠ [] →
      w.maxRow ≤ 2 + k →
      ((List.enumFrom k dataRows).foldl (rowStep hidx base colmap headers) w).maxRow =
        k + dataRows.length + 1 := by
  intro dataRows
  induction dataRows with
  | nil =>
    intro k w h
    exact absurd rfl h
  | cons r rest ih =>
    intro k w _ hw
    rw [List.enumFrom_cons, List.foldl_cons]
    have hstep := maxRow_rowStep hidx base colmap headers w (k, r) hne hw
    cases rest with
    | nil =>
      simp only [List.enumFrom_nil, List.foldl_nil, List.length_cons, List.length_nil]
      rw [hstep]
      omega
    | cons r' rest' =>
      rw [ih (k + 1) _ (by simp) (by rw [hstep]; omega)]
      simp
      omega

theorem maxRow_writeRows_le (hidx : List (String × Nat)) (base : List (String × Cell))
    (colmap : List (String × Option Cell)) (headers : List Cell) :
    ∀ (l : List (Nat × List Cell)) (w : Ws) (B : Nat),
      (∀ p ∈ l, 2 + p.1 ≤ B) → w.maxRow ≤ B →
      (l.foldl (rowStep hidx base colmap headers) w).maxRow ≤ B
  | [], _, _ => fun _ h => h
  | p :: t, w, B => by
    intro hl hw
    rw [List.foldl_cons]
    refine maxRow_writeRows_le hidx base colmap headers t _ B
      (fun q hq => hl q (List.mem_cons_of_mem _ hq)) ?_
    obtain ⟨-, h2⟩ := maxRow_rowStep_le hidx base colmap headers w p
    have := hl p (List.mem_cons_self p t)
    omega

theorem maxRow_writtenWs_pos (tpl : Ws) (headers : List Cell)
    (dataRows : List (List Cell)) (hne : _build_header_index tpl ≠ [])
    (htpl : 1 ≤ tpl.maxRow) (hd : dataRows ≠ []) :
    (writtenWs tpl headers dataRows).maxRow = dataRows.length + 1 := by
  unfold writtenWs writeAllRows
  rw [show dataRows.enum = List.enumFrom 0 dataRows from rfl]
  rw [maxRow_writeRows_from (_build_header_index tpl) (baseValues tpl)
    (_map_input_columns headers) headers hne dataRows 0 _ hd
    (by rw [maxRow_clearedTpl tpl htpl]; omega)]
  omega

theorem maxRow_writtenWs_le (tpl : Ws) (headers : List Cell)
    (dataRows : List (List Cell)) (htpl : 1 ≤ tpl.maxRow) :
    (writtenWs tpl headers dataRows).maxRow ≤ lastRowOf dataRows.length := by
  unfold writtenWs writeAllRows
  refine maxRow_writeRows_le _ _ _ _ dataRows.enum _ _ (fun p hp => ?_) ?_
  · have h2 := (List.mem_enumFrom hp).2.1
    unfold lastRowOf
    split <;> omega
  · rw [maxRow_clearedTpl tpl htpl]
    unfold lastRowOf
    split <;> omega

theorem maxRow_markStep_pres (hidx : List (String × Nat)) (s l : Nat) (w : Ws)
    (nm : String) (hw : 1 ≤ w.maxRow) : (markStep hidx s l w nm).maxRow = w.maxRow := by
  cases hd : dget hidx (_norm (some nm)) with
  | none => rw [markStep_eq_none hidx s l w nm hd]
  | some j =>
    rw [markStep_eq_some hidx s l w nm j hd]
    split
    · rw [maxRow_setCellF]
      omega
    · rfl

theorem maxRow_markFold_pres (hidx : List (String × Nat)) (s l : Nat) :
    ∀ (names : List String) (w : Ws), 1 ≤ w.maxRow →
      (names.foldl (markStep hidx s l) w).maxRow = w.maxRow
  | [], _ => fun _ => rfl
  | nm :: t, w => by
    intro hw
    rw [List.foldl_cons,
      maxRow_markFold_pres hidx s l t _ (by rw [maxRow_markStep_pres hidx s l w nm hw]; omega),
      maxRow_markStep_pres hidx s l w nm hw]

theorem maxRow_writeRows_ge (hidx : List (String × Nat)) (base : List (String × Cell))
    (colmap : List (String × Option Cell)) (headers : List Cell) :
    ∀ (l : List (Nat × List Cell)) (w : Ws),
      w.maxRow ≤ (l.foldl (rowStep hidx base colmap headers) w).maxRow
  | [], _ => Nat.le_refl _
  | p :: t, w => by
    rw [List.foldl_cons]
    obtain ⟨hlo, -⟩ := maxRow_rowStep_le hidx base colmap headers w p
    exact Nat.le_trans hlo (maxRow_writeRows_ge hidx base colmap headers t _)

theorem maxRow_markedWs (tpl : Ws) (headers : List Cell) (dataRows : List (List Cell))
    (htpl : 1 ≤ tpl.maxRow) :
    (markedWs tpl headers dataRows).maxRow = (writtenWs tpl headers dataRows).maxRow := by
  unfold markedWs
  split
  · unfold _mark_required_empty_columns
    refine maxRow_markFold_pres _ _ _ REQUIRED_DGAV_COLS _ ?_
    have h2 : (clearedTpl tpl).maxRow = 1 := maxRow_clearedTpl tpl htpl
    have h3 : (clearedTpl tpl).maxRow ≤ (writtenWs tpl headers dataRows).maxRow :=
      maxRow_writeRows_ge _ _ _ _ dataRows.enum (clearedTpl tpl)
    omega
  · rfl

theorem maxRow_markedWs_le (tpl : Ws) (headers : List Cell)
    (dataRows : List (List Cell)) (htpl : 1 ≤ tpl.maxRow) :
    (markedWs tpl headers dataRows).maxRow ≤ lastRowOf dataRows.length := by
  rw [maxRow_markedWs tpl headers dataRows htpl]
  exact maxRow_writtenWs_le tpl headers dataRows htpl

theorem trimmedWs_eq (tpl : Ws) (headers : List Cell) (dataRows : List (List Cell))
    (htpl : 1 ≤ tpl.maxRow) :
    trimmedWs tpl headers dataRows = markedWs tpl headers dataRows := by
  unfold trimmedWs
  rw [if_neg]
  have := maxRow_markedWs_le tpl headers dataRows htpl
  omega

/-! ### Cells outside the written row -/

theorem getCell_setVal_otherRow (w : Ws) (er c2 : Nat) (v : Cell) (r c : Nat)
    (her : 1 ≤ er) (hr : r - 1 ≠ er - 1) :
    (w.setVal er c2 v).getCell r c = w.getCell r c :=
  getCell_setCellF_untouched w er c2 r c _ her (Or.inl hr)

theorem getCell_writeRowDefaults_otherRow (w : Ws) (hidx : List (String × Nat))
    (base : List (String × Cell)) (er r c : Nat)
    (her : 1 ≤ er) (hr : r - 1 ≠ er - 1) :
    (writeRowDefaults w hidx base er).getCell r c = w.getCell r c := by
  unfold writeRowDefaults
  exact foldl_pres (fun w => w.getCell r c) _
    (fun acc p => getCell_setVal_otherRow acc er p.2 _ r c her hr) hidx w

theorem getCell_writeRowMapped_otherRow (w : Ws) (hidx : List (String × Nat))
    (colmap : List (String × Option Cell)) (headers : List Cell) (rowIn : List Cell) (er r c : Nat)
    (her : 1 ≤ er) (hr : r - 1 ≠ er - 1) :
    (writeRowMapped w hidx colmap headers rowIn er).getCell r c = w.getCell r c := by
  unfold writeRowMapped
  refine foldl_pres (fun w => w.getCell r c) _ (fun acc q => ?_) INPUT_TO_DGAV_COLMAP w
  rcases wrmStep_cases hidx colmap headers rowIn er acc q with h | ⟨j, lbl, v, -, -, h⟩
  · rw [h]
  · rw [h]
    exact getCell_setVal_otherRow acc er j _ r c her hr

theorem getCell_rowStep_otherRow (hidx : List (String × Nat))
    (base : List (String × Cell)) (colmap : List (String × Option Cell)) (headers : List Cell) (w : Ws)
    (p : Nat × List Cell) (r c : Nat) (hr : r - 1 ≠ (2 + p.1) - 1) :
    (rowStep hidx base colmap headers w p).getCell r c = w.getCell r c := by
  unfold rowStep
  rw [getCell_writeRowMapped_otherRow _ _ _ _ _ _ r c (by omega) hr,
    getCell_writeRowDefaults_otherRow _ _ _ _ r c (by omega) hr]

theorem getCell_writeRows_row1 (hidx : List (String × Nat))
    (base : List (String × Cell)) (colmap : List (String × Option Cell)) (headers : List Cell) :
    ∀ (l : List (Nat × List Cell)) (w : Ws) (c : Nat),
      (l.foldl (rowStep hidx base colmap headers) w).getCell 1 c = w.getCell 1 c
  | [], _, _ => rfl
  | p :: t, w, c => by
    rw [List.foldl_cons, getCell_writeRows_row1 hidx base colmap headers t _ c,
      getCell_rowStep_otherRow hidx base colmap headers w p 1 c (by omega)]

theorem getCell_row1_deleteRows2 (w : Ws) (a c : Nat) :
    (w.deleteRows 2 a).getCell 1 c = w.getCell 1 c := by
  unfold Ws.deleteRows Ws.getCell
  cases hr : w.rows with
  | nil => simp
  | cons row0 rest => rfl

theorem getCell_row1_clearedTpl (tpl : Ws) (c : Nat) :
    (clearedTpl tpl).getCell 1 c = tpl.getCell 1 c := by
  unfold clearedTpl
  split
  · exact getCell_row1_deleteRows2 tpl _ c
  · rfl

/-- Header-row cell values survive the whole conversion (only fills change). -/
theorem getCell_row1_value_convertBody (tpl : Ws) (headers : List Cell)
    (dataRows : List (List Cell)) (htpl : 1 ≤ tpl.maxRow) (c : Nat) :
    ((convertBody tpl headers dataRows).getCell 1 c).value = (tpl.getCell 1 c).value := by
  have h0 : (convertBody tpl headers dataRows).getCell 1 c =
      (trimmedWs tpl headers dataRows).getCell 1 c := rfl
  rw [h0, trimmedWs_eq tpl headers dataRows htpl]
  have hval : ((markedWs tpl headers dataRows).getCell 1 c).value =
      ((writtenWs tpl headers dataRows).getCell 1 c).value := by
    unfold markedWs
    split
    · obtain ⟨hv, -, -⟩ := markFold_getCell (_build_header_index tpl) (bhi_pos tpl) 2
        (lastRowOf dataRows.length) REQUIRED_DGAV_COLS (writtenWs tpl headers dataRows)
      exact hv 1 c
    · rfl
  rw [hval]
  unfold writtenWs writeAllRows
  rw [getCell_writeRows_row1 _ _ _ _ dataRows.enum _ c, getCell_row1_clearedTpl]

/-! ### `_build_header_index` only depends on the header values -/

theorem getCell_blank_of_maxRow_lt (w : Ws) (r c : Nat) (h : w.maxRow < r) :
    w.getCell r c = blankCell := by
  show (w.rows.getD (r - 1) []).getD (c - 1) blankCell = blankCell
  have h1 : w.rows.getD (r - 1) [] = [] := by
    apply List.getD_eq_default
    unfold Ws.maxRow at h
    omega
  rw [h1]
  simp

theorem le_foldr_max (l : List Nat) (a : Nat) (h : a ∈ l) : a ≤ l.foldr max 0 := by
  induction l with
  | nil => cases h
  | cons b t ih =>
    rcases List.mem_cons.mp h with rfl | h'
    · exact Nat.le_max_left _ _
    · exact Nat.le_trans (ih h') (Nat.le_max_right _ _)

theorem rowLen_le_maxCol (w : Ws) (i : Nat) : (w.rows.getD i []).length ≤ w.maxCol := by
  unfold Ws.maxCol
  rcases Nat.lt_or_ge i w.rows.length with h | h
  · refine le_foldr_max _ _ ?_
    refine List.mem_map.mpr ⟨w.rows.getD i [], ?_, rfl⟩
    rw [List.getD_eq_getElem w.rows [] h]
    exact List.getElem_mem h
  · rw [List.getD_eq_default _ _ h]
    simp

theorem getCell_row1_nullc_of_maxCol_lt (w : Ws) (c : Nat) (h : w.maxCol < c) :
    (w.getCell 1 c).value = Cell.nullc := by
  show ((w.rows.getD (1 - 1) []).getD (c - 1) blankCell).value = Cell.nullc
  have h1 : (w.rows.getD 0 []).getD (c - 1) blankCell = blankCell := by
    apply List.getD_eq_default
    have := rowLen_le_maxCol w 0
    omega
  rw [show (1 : Nat) - 1 = 0 from rfl, h1]
  rfl

theorem bhi_skip_high (w : Ws) :
    ∀ (cols : List Nat) (acc : List (String × Nat)), (∀ c ∈ cols, w.maxCol < c) →
      cols.foldl (bhiStep w) acc = acc
  | [], _ => fun _ => rfl
  | c :: t, acc => by
    intro hc
    rw [List.foldl_cons]
    have hstep : bhiStep w acc c = acc := by
      unfold bhiStep
      rw [getCell_row1_nullc_of_maxCol_lt w c (hc c (List.mem_cons_self c t)), if_neg]
      simp [cellTruthy]
    rw [hstep]
    exact bhi_skip_high w t acc (fun c' h' => hc c' (List.mem_cons_of_mem _ h'))

theorem bhi_pad (w : Ws) (M : Nat) (hM : w.maxCol ≤ M) :
    (List.range' 1 M).foldl (bhiStep w) [] = _build_header_index w := by
  unfold _build_header_index
  have hsplit : List.range' 1 M =
      List.range' 1 w.maxCol ++ List.range' (1 + w.maxCol) (M - w.maxCol) := by
    have h := List.range'_append 1 w.maxCol (M - w.maxCol) 1
    rw [Nat.one_mul] at h
    rw [h]
    congr 1
    omega
  rw [hsplit, List.foldl_append]
  exact bhi_skip_high w _ _ (fun c hc => by
    have := List.mem_range'_1.mp hc
    omega)

theorem bhi_congr (w w' : Ws)
    (hv : ∀ c, (w.getCell 1 c).value = (w'.getCell 1 c).value) :
    _build_header_index w = _build_header_index w' := by
  rw [← bhi_pad w (max w.maxCol w'.maxCol) (Nat.le_max_left _ _),
    ← bhi_pad w' (max w.maxCol w'.maxCol) (Nat.le_max_right _ _)]
  have hstep : bhiStep w = bhiStep w' := by
    funext acc c
    unfold bhiStep
    rw [hv c]
  rw [hstep]

/-! ### C4: the reported count versus the downstream re-scan -/

theorem bhi_convertBody (tpl : Ws) (headers : List Cell) (dataRows : List (List Cell))
    (htpl : 1 ≤ tpl.maxRow) :
    _build_header_index (convertBody tpl headers dataRows) = _build_header_index tpl :=
  bhi_congr _ _ (fun c => getCell_row1_value_convertBody tpl headers dataRows htpl c)

theorem maxRow_convertBody (tpl : Ws) (headers : List Cell) (dataRows : List (List Cell))
    (hne : _build_header_index tpl ≠ []) (htpl : 1 ≤ tpl.maxRow) :
    (convertBody tpl headers dataRows).maxRow = lastRowOf dataRows.length := by
  have h0 : (convertBody tpl headers dataRows).maxRow =
      (trimmedWs tpl headers dataRows).maxRow := rfl
  rw [h0, trimmedWs_eq tpl headers dataRows htpl, maxRow_markedWs tpl headers dataRows htpl]
  cases dataRows with
  | nil =>
    rw [show writtenWs tpl headers [] = clearedTpl tpl from rfl, maxRow_clearedTpl tpl htpl]
    rfl
  | cons r t =>
    rw [maxRow_writtenWs_pos tpl headers (r :: t) hne htpl (by simp)]
    unfold lastRowOf
    rw [if_pos (by simp)]

theorem lastRowOf_sub_one (n : Nat) : lastRowOf n - 1 = n := by
  unfold lastRowOf
  split <;> omega

theorem analyse_run (w : Ws) (j : Nat)
    (hk : dget (_build_header_index w) (_norm (some "CODIGO_AMOSTRA")) = some j)
    (hj0 : j ≠ 0) :
    analyse_output_count w = ((List.range' 2 (w.maxRow - 1)).filter
      (fun r => !(isEmptyCellP (w.getCell r j).value))).length := by
  show (match dget (_build_header_index w) (_norm (some "CODIGO_AMOSTRA")) with
    | none => 0
    | some j =>
      if j == 0 then 0
      else ((List.range' 2 (w.maxRow - 1)).filter
        (fun r => !(isEmptyCellP (w.getCell r j).value))).length) = _
  rw [hk]
  show (if j == 0 then 0 else ((List.range' 2 (w.maxRow - 1)).filter
    (fun r => !(isEmptyCellP (w.getCell r j).value))).length) = _
  rw [if_neg (by simpa using hj0)]

theorem filter_length_eq_iff {α : Type} (p : α → Bool) (l : List α) :
    (l.filter p).length = l.length ↔ ∀ a ∈ l, p a = true := by
  induction l with
  | nil => simp
  | cons a t ih =>
    by_cases hp : p a
    · simp [hp, ih]
    · have hle := List.length_filter_le p t
      simp only [List.filter_cons, if_neg hp, List.length_cons]
      constructor
      · intro h
        exact absurd h (by omega)
      · intro h
        exact absurd (h a (List.mem_cons_self a t)) hp

/-- C4 (counterexample): `gridSmall` keeps three records (one of them with an
empty key cell), the conversion reports "3 amostras", yet the downstream
re-scan of the produced document counts only 2 non-empty `CODIGO_AMOSTRA`
cells. -/
theorem c4_count_consistency_cex :
    (process_pre_to_dgav true tplSmall gridSmall).toOption.map (fun p => p.2) =
      some "Foram processadas 3 amostras." ∧
    (process_pre_to_dgav true tplSmall gridSmall).toOption.map
      (fun p => analyse_output_count p.1) = some 2 ∧
    (2 : Nat) ≠ 3 := by
  decide

/-- C4 (amended): the log message counts every kept record, while the
downstream analysis counts exactly the data rows `2..N+1` whose written
key-field cell is non-empty; the re-scan count never exceeds the reported
count, and the two agree precisely when every data row's key cell is
written non-empty (so a kept row with an empty sample code makes them
diverge). -/
theorem c4_count_consistency_amended (templateExists : Bool) (tpl : Ws)
    (grid : List (List Cell)) (out : Ws) (msg : String) (j : Nat)
    (hok : process_pre_to_dgav templateExists tpl grid = .ok (out, msg))
    (htpl : 1 ≤ tpl.maxRow)
    (hkey : dget (_build_header_index tpl) (_norm (some "CODIGO_AMOSTRA")) = some j) :
    ∃ headers dataRows,
      _load_pre_registo_df grid = some (headers, dataRows) ∧
      msg = "Foram processadas " ++ toString dataRows.length ++ " amostras." ∧
      analyse_output_count out =
        ((List.range' 2 dataRows.length).filter
          (fun r => !(isEmptyCellP (out.getCell r j).value))).length ∧
      analyse_output_count out ≤ dataRows.length ∧
      (analyse_output_count out = dataRows.length ↔
        ∀ r, 2 ≤ r → r ≤ dataRows.length + 1 →
          isEmptyCellP (out.getCell r j).value = false) := by
  obtain ⟨headers, dataRows, hload, hout, hmsg⟩ :=
    process_ok_inv templateExists tpl grid out msg hok
  have hmem := dget_mem _ _ _ hkey
  have hj : 1 ≤ j := bhi_pos tpl _ hmem
  have hne : _build_header_index tpl ≠ [] := by
    intro h
    rw [h] at hmem
    exact (List.not_mem_nil _) hmem
  have hkey' : dget (_build_header_index out) (_norm (some "CODIGO_AMOSTRA")) = some j := by
    rw [hout, bhi_convertBody tpl headers dataRows htpl]
    exact hkey
  have hmr : out.maxRow = lastRowOf dataRows.length := by
    rw [hout]
    exact maxRow_convertBody tpl headers dataRows hne htpl
  have hcount := analyse_run out j hkey' (by omega)
  rw [hmr, lastRowOf_sub_one] at hcount
  have hrlen : (List.range' 2 dataRows.length).length = dataRows.length := by
    simp
  refine ⟨headers, dataRows, hload, hmsg, hcount, ?_, ?_⟩
  · rw [hcount]
    have := List.length_filter_le (fun r => !(isEmptyCellP (out.getCell r j).value))
      (List.range' 2 dataRows.length)
    omega
  · rw [hcount]
    constructor
    · intro h
      intro r hr2 hrn
      have hall := (filter_length_eq_iff
        (fun r => !(isEmptyCellP (out.getCell r j).value))
        (List.range' 2 dataRows.length)).mp (by rw [hrlen]; exact h)
      have hmemr : r ∈ List.range' 2 dataRows.length :=
        List.mem_range'_1.mpr ⟨hr2, by omega⟩
      have := hall r hmemr
      simpa using this
    · intro h
      have hall : ∀ r ∈ List.range' 2 dataRows.length,
          (!(isEmptyCellP (out.getCell r j).value)) = true := by
        intro r hrm
        have hb := List.mem_range'_1.mp hrm
        have := h r hb.1 (by omega)
        simp [this]
      rw [(filter_length_eq_iff _ _).mpr hall, hrlen]

/-- C4 (witness for the amended theorem), on `tplSmall`/`gridSmall`
(reported 3, re-scan 2 because the second data row's key cell is empty). -/
theorem c4_count_consistency_amended_witness :
    ∃ headers dataRows,
      _load_pre_registo_df gridSmall = some (headers, dataRows) ∧
      ("Foram processadas 3 amostras." : String) =
        "Foram processadas " ++ toString dataRows.length ++ " amostras." ∧
      analyse_output_count
          (convertBody tplSmall (gridSmall.getD 1 []) (selectRecordsAfter gridSmall 1)) =
        ((List.range' 2 dataRows.length).filter
          (fun r => !(isEmptyCellP ((convertBody tplSmall (gridSmall.getD 1 [])
            (selectRecordsAfter gridSmall 1)).getCell r 1).value))).length ∧
      analyse_output_count
          (convertBody tplSmall (gridSmall.getD 1 []) (selectRecordsAfter gridSmall 1)) ≤
        dataRows.length ∧
      (analyse_output_count
          (convertBody tplSmall (gridSmall.getD 1 []) (selectRecordsAfter gridSmall 1)) =
        dataRows.length ↔
        ∀ r, 2 ≤ r → r ≤ dataRows.length + 1 →
          isEmptyCellP ((convertBody tplSmall (gridSmall.getD 1 [])
            (selectRecordsAfter gridSmall 1)).getCell r 1).value = false) :=
  c4_count_consistency_amended true tplSmall gridSmall
    (convertBody tplSmall (gridSmall.getD 1 []) (selectRecordsAfter gridSmall 1))
    "Foram processadas 3 amostras." 1 (by rfl) (by decide) (by decide)

/-! ### C2: formatting is never copied to the data rows -/

theorem getCell_setCellF_fmt (w : Ws) (r c : Nat) (f : CellData → CellData)
    (hf : ∀ cd, fmtOf (f cd) = fmtOf cd) (hr : 1 ≤ r) (r' c' : Nat) :
    fmtOf ((w.setCellF r c f).getCell r' c') = fmtOf (w.getCell r' c') := by
  show fmtOf ((((padTo w.rows r []).set (r - 1)
      (setAt ((padTo w.rows r []).getD (r - 1) []) (c - 1) f)).getD (r' - 1) []).getD
        (c' - 1) blankCell) =
    fmtOf ((w.rows.getD (r' - 1) []).getD (c' - 1) blankCell)
  rcases eq_or_ne (r' - 1) (r - 1) with he | he
  · rw [he, getD_set_self _ _ _ _ (by rw [length_padTo]; omega)]
    rcases eq_or_ne (c' - 1) (c - 1) with hce | hce
    · rw [hce, setAt_getD_self, hf, padTo_getD]
    · rw [setAt_getD_other _ _ _ _ hce, padTo_getD]
  · rw [getD_set_other _ _ _ _ _ (Ne.symm he), padTo_getD]

theorem fmtOf_writeRowDefaults (w : Ws) (hidx : List (String × Nat))
    (base : List (String × Cell)) (er r c : Nat) (her : 1 ≤ er) :
    fmtOf ((writeRowDefaults w hidx base er).getCell r c) = fmtOf (w.getCell r c) := by
  unfold writeRowDefaults
  exact foldl_pres (fun w => fmtOf (w.getCell r c))
    (fun acc p => acc.setVal er p.2 ((dget base p.1).getD Cell.nullc))
    (fun acc p => getCell_setCellF_fmt acc er p.2
      (fun cd => { cd with value := (dget base p.1).getD Cell.nullc })
      (fun cd => rfl) her r c) hidx w

theorem fmtOf_writeRowMapped (w : Ws) (hidx : List (String × Nat))
    (colmap : List (String × Option Cell)) (headers : List Cell) (rowIn : List Cell) (er r c : Nat)
    (her : 1 ≤ er) :
    fmtOf ((writeRowMapped w hidx colmap headers rowIn er).getCell r c) =
      fmtOf (w.getCell r c) := by
  unfold writeRowMapped
  refine foldl_pres (fun w => fmtOf (w.getCell r c)) _ (fun acc q => ?_)
    INPUT_TO_DGAV_COLMAP w
  rcases wrmStep_cases hidx colmap headers rowIn er acc q with h | ⟨j, lbl, v, -, -, h⟩
  · rw [h]
  · rw [h]
    exact getCell_setCellF_fmt acc er j
      (fun cd => { cd with value := transformVal v })
      (fun cd => rfl) her r c

theorem fmtOf_writeRows (hidx : List (String × Nat)) (base : List (String × Cell))
    (colmap : List (String × Option Cell)) (headers : List Cell) :
    ∀ (l : List (Nat × List Cell)) (w : Ws) (r c : Nat),
      fmtOf ((l.foldl (rowStep hidx base colmap headers) w).getCell r c) = fmtOf (w.getCell r c)
  | [], _, _, _ => rfl
  | p :: t, w, r, c => by
    rw [List.foldl_cons, fmtOf_writeRows hidx base colmap headers t _ r c]
    unfold rowStep
    rw [fmtOf_writeRowMapped _ _ _ _ _ _ r c (by omega),
      fmtOf_writeRowDefaults _ _ _ _ r c (by omega)]

/-- Every cell of every data row of the output carries default formatting:
nothing of the template row's fill, style, hyperlink or comment is copied. -/
theorem fmtOf_convertBody (tpl : Ws) (headers : List Cell) (dataRows : List (List Cell))
    (htpl : 1 ≤ tpl.maxRow) (r c : Nat) (hr : 2 ≤ r) :
    fmtOf ((convertBody tpl headers dataRows).getCell r c) = fmtOf blankCell := by
  have h0 : (convertBody tpl headers dataRows).getCell r c =
      (trimmedWs tpl headers dataRows).getCell r c := rfl
  rw [h0, trimmedWs_eq tpl headers dataRows htpl]
  have hmark : (markedWs tpl headers dataRows).getCell r c =
      (writtenWs tpl headers dataRows).getCell r c := by
    unfold markedWs
    split
    · obtain ⟨-, ho, -⟩ := markFold_getCell (_build_header_index tpl) (bhi_pos tpl) 2
        (lastRowOf dataRows.length) REQUIRED_DGAV_COLS (writtenWs tpl headers dataRows)
      exact ho r c hr
    · rfl
  rw [hmark]
  unfold writtenWs writeAllRows
  rw [fmtOf_writeRows _ _ _ _ dataRows.enum _ r c,
    getCell_blank_of_maxRow_lt (clearedTpl tpl) r c (by rw [maxRow_clearedTpl tpl htpl]; omega)]

/-! ### C2: unmapped template columns keep the row-2 default values -/

theorem foldl_pres_mem {σ α β : Type} (P : σ → β) (g : σ → α → σ) :
    ∀ (l : List α) (s : σ), (∀ s a, a ∈ l → P (g s a) = P s) → P (l.foldl g s) = P s
  | [], _ => fun _ => rfl
  | a :: t, s => fun h => by
    rw [List.foldl_cons,
      foldl_pres_mem P g t _ (fun s b hb => h s b (List.mem_cons_of_mem _ hb)),
      h s a (List.mem_cons_self a t)]

theorem dinsert_key_inj {α : Type} (l : List (String × α)) (k : String) (v : α)
    (hinj : ∀ p q, p ∈ l → q ∈ l → p.1 = q.1 → p = q) :
    ∀ p q, p ∈ dinsert l k v → q ∈ dinsert l k v → p.1 = q.1 → p = q := by
  intro p q hp hq hpq
  unfold dinsert at hp hq
  by_cases hany : l.any (fun p => p.1 == k)
  · rw [if_pos hany] at hp hq
    rcases List.mem_map.mp hp with ⟨a, ha, hae⟩
    rcases List.mem_map.mp hq with ⟨b, hb, hbe⟩
    by_cases hak : a.1 == k <;> by_cases hbk : b.1 == k
    · rw [if_pos hak] at hae
      rw [if_pos hbk] at hbe
      rw [← hae, ← hbe]
    · rw [if_pos hak] at hae
      rw [if_neg hbk] at hbe
      subst hae hbe
      exact absurd (beq_iff_eq.mpr hpq.symm) hbk
    · rw [if_neg hak] at hae
      rw [if_pos hbk] at hbe
      subst hae hbe
      exact absurd (beq_iff_eq.mpr hpq) hak
    · rw [if_neg hak] at hae
      rw [if_neg hbk] at hbe
      subst hae hbe
      exact hinj a b ha hb hpq
  · rw [if_neg hany] at hp hq
    rcases List.mem_append.mp hp with hp' | hp' <;> rcases List.mem_append.mp hq with hq' | hq'
    · exact hinj p q hp' hq' hpq
    · simp only [List.mem_singleton] at hq'
      subst hq'
      exfalso
      apply hany
      refine List.any_eq_true.mpr ⟨p, hp', ?_⟩
      exact beq_iff_eq.mpr hpq
    · simp only [List.mem_singleton] at hp'
      subst hp'
      exfalso
      apply hany
      refine List.any_eq_true.mpr ⟨q, hq', ?_⟩
      exact beq_iff_eq.mpr hpq.symm
    · simp only [List.mem_singleton] at hp' hq'
      rw [hp', hq']

theorem bhi_key_inj (w : Ws) :
    ∀ p q, p ∈ _build_header_index w → q ∈ _build_header_index w → p.1 = q.1 → p = q := by
  unfold _build_header_index
  suffices h : ∀ (cols : List Nat) (acc : List (String × Nat)),
      (∀ p q, p ∈ acc → q ∈ acc → p.1 = q.1 → p = q) →
      ∀ p q, p ∈ cols.foldl (bhiStep w) acc → q ∈ cols.foldl (bhiStep w) acc →
        p.1 = q.1 → p = q by
    exact h _ [] (fun p q hp _ _ => absurd hp (List.not_mem_nil p))
  intro cols
  induction cols with
  | nil => intro acc h; exact h
  | cons c t ih =>
    intro acc hacc
    rw [List.foldl_cons]
    apply ih
    unfold bhiStep
    split
    · exact dinsert_key_inj acc _ c hacc
    · exact hacc

theorem dget_of_mem_keyinj {α : Type} (l : List (String × α)) (k : String) (v : α)
    (hinj : ∀ p q, p ∈ l → q ∈ l → p.1 = q.1 → p = q) (hm : (k, v) ∈ l) :
    dget l k = some v := by
  unfold dget
  cases hf : l.find? (fun p => p.1 == k) with
  | none =>
    have := List.find?_eq_none.mp hf (k, v) hm
    simp at this
  | some p =>
    have hp := List.find?_some hf
    have hpm := List.mem_of_find?_eq_some hf
    simp only [beq_iff_eq] at hp
    have hpe : p = (k, v) := hinj p (k, v) hpm hm (by rw [hp])
    rw [hpe]
    rfl

theorem dget_baseValues (tpl : Ws) (nm : String) (j : Nat)
    (hmem : (nm, j) ∈ _build_header_index tpl) :
    dget (baseValues tpl) nm = some ((tpl.getCell 2 j).value) := by
  have hinj : ∀ p q, p ∈ baseValues tpl → q ∈ baseValues tpl → p.1 = q.1 → p = q := by
    intro p q hp hq hpq
    unfold baseValues at hp hq
    rcases List.mem_map.mp hp with ⟨a, ha, hae⟩
    rcases List.mem_map.mp hq with ⟨b, hb, hbe⟩
    subst hae hbe
    have hab : a = b := bhi_key_inj tpl a b ha hb hpq
    rw [hab]
  apply dget_of_mem_keyinj _ _ _ hinj
  unfold baseValues
  exact List.mem_map.mpr ⟨(nm, j), hmem, rfl⟩

theorem value_setVal_self (w : Ws) (er c2 : Nat) (v : Cell) (her : 1 ≤ er) :
    ((w.setVal er c2 v).getCell er c2).value = v := by
  have h := getCell_setCellF_self w er c2 (fun cd => { cd with value := v }) her
  rw [show w.setVal er c2 v =
    w.setCellF er c2 (fun cd => { cd with value := v }) from rfl, h]

theorem wrd_untouchedCol (base : List (String × Cell)) (er j : Nat)
    (her : 1 ≤ er) (hj : 1 ≤ j) :
    ∀ (l : List (String × Nat)) (w : Ws), (∀ q ∈ l, 1 ≤ q.2) → (∀ q ∈ l, q.2 ≠ j) →
      ((l.foldl (fun acc p => acc.setVal er p.2 ((dget base p.1).getD Cell.nullc)) w).getCell
        er j) = w.getCell er j
  | [], _ => fun _ _ => rfl
  | p :: t, w => fun hpos hne => by
    rw [List.foldl_cons,
      wrd_untouchedCol base er j her hj t _ (fun q hq => hpos q (List.mem_cons_of_mem _ hq))
        (fun q hq => hne q (List.mem_cons_of_mem _ hq))]
    refine getCell_setCellF_untouched w er p.2 er j _ her (Or.inr ?_)
    have h1 := hpos p (List.mem_cons_self p t)
    have h2 := hne p (List.mem_cons_self p t)
    omega

theorem wrd_val (base : List (String × Cell)) (er : Nat) (her : 1 ≤ er)
    (nm : String) (j : Nat) (hj : 1 ≤ j) :
    ∀ (l : List (String × Nat)) (w : Ws), (∀ q ∈ l, 1 ≤ q.2) →
      (nm, j) ∈ l → (∀ q ∈ l, q.2 = j → q = (nm, j)) →
      (((l.foldl (fun acc p => acc.setVal er p.2 ((dget base p.1).getD Cell.nullc)) w).getCell
        er j).value) = (dget base nm).getD Cell.nullc
  | [], _ => fun _ hm _ => absurd hm (List.not_mem_nil _)
  | p :: t, w => fun hpos hmem huniq => by
    rw [List.foldl_cons]
    by_cases hmt : (nm, j) ∈ t
    · exact wrd_val base er her nm j hj t _
        (fun q hq => hpos q (List.mem_cons_of_mem _ hq)) hmt
        (fun q hq h2 => huniq q (List.mem_cons_of_mem _ hq) h2)
    · have hp : p = (nm, j) := by
        rcases List.mem_cons.mp hmem with h | h
        · exact h.symm
        · exact absurd h hmt
      have htn : ∀ q ∈ t, q.2 ≠ j := fun q hq hqj =>
        hmt ((huniq q (List.mem_cons_of_mem _ hq) hqj) ▸ hq)
      rw [wrd_untouchedCol base er j her hj t _
        (fun q hq => hpos q (List.mem_cons_of_mem _ hq)) htn, hp]
      exact value_setVal_self w er j _ her

theorem wrm_untouchedCol (hidx : List (String × Nat)) (colmap : List (String × Option Cell)) (headers : List Cell)
    (rowIn : List Cell) (er : Nat) (hpos : ∀ p ∈ hidx, 1 ≤ p.2) (j : Nat)
    (hj : 1 ≤ j) (her : 1 ≤ er)
    (hnw : ∀ q ∈ INPUT_TO_DGAV_COLMAP, dget hidx (_norm (some q.1)) = some j →
      dget colmap q.1 = none ∨ dget colmap q.1 = some none)
    (w : Ws) (r : Nat) :
    (writeRowMapped w hidx colmap headers rowIn er).getCell r j = w.getCell r j := by
  unfold writeRowMapped
  refine foldl_pres_mem (fun w => w.getCell r j) _ INPUT_TO_DGAV_COLMAP w
    (fun acc q hq => ?_)
  rcases wrmStep_cases hidx colmap headers rowIn er acc q with h | ⟨j', lbl, v, hd, hc, h⟩
  · rw [h]
  · rw [h]
    have hj' : 1 ≤ j' := hpos _ (dget_mem _ _ _ hd)
    have hne : j' ≠ j := by
      intro he
      subst he
      rcases hnw q hq hd with h2 | h2 <;> rw [h2] at hc <;> cases hc
    exact getCell_setCellF_untouched acc er j' r j _ her (Or.inr (by omega))

theorem rowStep_val (hidx : List (String × Nat)) (base : List (String × Cell))
    (colmap : List (String × Option Cell)) (headers : List Cell) (hpos : ∀ p ∈ hidx, 1 ≤ p.2)
    (nm : String) (j : Nat) (hj : 1 ≤ j) (hmem : (nm, j) ∈ hidx)
    (huniq : ∀ q ∈ hidx, q.2 = j → q = (nm, j))
    (hnw : ∀ q ∈ INPUT_TO_DGAV_COLMAP, dget hidx (_norm (some q.1)) = some j →
      dget colmap q.1 = none ∨ dget colmap q.1 = some none)
    (w : Ws) (p : Nat × List Cell) :
    ((rowStep hidx base colmap headers w p).getCell (2 + p.1) j).value =
      (dget base nm).getD Cell.nullc := by
  unfold rowStep
  rw [wrm_untouchedCol hidx colmap headers p.2 (2 + p.1) hpos j hj (by omega) hnw _ (2 + p.1)]
  unfold writeRowDefaults
  exact wrd_val base (2 + p.1) (by omega) nm j hj hidx _ hpos hmem huniq

theorem writeRows_otherRow (hidx : List (String × Nat)) (base : List (String × Cell))
    (colmap : List (String × Option Cell)) (headers : List Cell) :
    ∀ (l : List (Nat × List Cell)) (w : Ws) (r c : Nat),
      (∀ p ∈ l, r - 1 ≠ (2 + p.1) - 1) →
      (l.foldl (rowStep hidx base colmap headers) w).getCell r c = w.getCell r c
  | [], _, _, _ => fun _ => rfl
  | p :: t, w, r, c => fun h => by
    rw [List.foldl_cons,
      writeRows_otherRow hidx base colmap headers t _ r c (fun q hq => h q (List.mem_cons_of_mem _ hq)),
      getCell_rowStep_otherRow hidx base colmap headers w p r c (h p (List.mem_cons_self p t))]

theorem writeRows_val (hidx : List (String × Nat)) (base : List (String × Cell))
    (colmap : List (String × Option Cell)) (headers : List Cell) (hpos : ∀ p ∈ hidx, 1 ≤ p.2)
    (nm : String) (j : Nat) (hj : 1 ≤ j) (hmem : (nm, j) ∈ hidx)
    (huniq : ∀ q ∈ hidx, q.2 = j → q = (nm, j))
    (hnw : ∀ q ∈ INPUT_TO_DGAV_COLMAP, dget hidx (_norm (some q.1)) = some j →
      dget colmap q.1 = none ∨ dget colmap q.1 = some none) :
    ∀ (rows : List (List Cell)) (k i : Nat) (w : Ws), i < rows.length →
      ((((List.enumFrom k rows).foldl (rowStep hidx base colmap headers) w).getCell
        (2 + k + i) j).value) = (dget base nm).getD Cell.nullc := by
  intro rows
  induction rows with
  | nil =>
    intro k i w hi
    simp at hi
  | cons r0 rest ih =>
    intro k i w hi
    rw [List.enumFrom_cons, List.foldl_cons]
    cases i with
    | zero =>
      rw [writeRows_otherRow hidx base colmap headers (List.enumFrom (k + 1) rest) _ (2 + k + 0) j
        (fun q hq => by
          have := (List.mem_enumFrom hq).1
          omega)]
      have h := rowStep_val hidx base colmap headers hpos nm j hj hmem huniq hnw w (k, r0)
      simpa using h
    | succ i' =>
      have h := ih (k + 1) i' (rowStep hidx base colmap headers w (k, r0)) (by simpa using hi)
      rw [show 2 + k + (i' + 1) = 2 + (k + 1) + i' from by omega]
      exact h

/-- Column j of the written sheet carries the template's row-2 default in
every data row, when no mapped input column targets column j. -/
theorem value_convertBody_default (tpl : Ws) (headers : List Cell)
    (dataRows : List (List Cell)) (htpl : 1 ≤ tpl.maxRow)
    (nm : String) (j : Nat) (hmem : (nm, j) ∈ _build_header_index tpl)
    (hnw : ∀ q ∈ INPUT_TO_DGAV_COLMAP,
      dget (_build_header_index tpl) (_norm (some q.1)) = some j →
      dget (_map_input_columns headers) q.1 = none ∨
      dget (_map_input_columns headers) q.1 = some none)
    (i : Nat) (hi : i < dataRows.length) :
    ((convertBody tpl headers dataRows).getCell (2 + i) j).value =
      (tpl.getCell 2 j).value := by
  have hj : 1 ≤ j := bhi_pos tpl _ hmem
  have huniq : ∀ q ∈ _build_header_index tpl, q.2 = j → q = (nm, j) :=
    fun q hq hqj => bhi_inj tpl q (nm, j) hq hmem hqj
  have h0 : (convertBody tpl headers dataRows).getCell (2 + i) j =
      (trimmedWs tpl headers dataRows).getCell (2 + i) j := rfl
  rw [h0, trimmedWs_eq tpl headers dataRows htpl]
  have hmark : (markedWs tpl headers dataRows).getCell (2 + i) j =
      (writtenWs tpl headers dataRows).getCell (2 + i) j := by
    unfold markedWs
    split
    · obtain ⟨-, ho, -⟩ := markFold_getCell (_build_header_index tpl) (bhi_pos tpl) 2
        (lastRowOf dataRows.length) REQUIRED_DGAV_COLS (writtenWs tpl headers dataRows)
      exact ho (2 + i) j (by omega)
    · rfl
  rw [hmark]
  unfold writtenWs writeAllRows
  have h := writeRows_val (_build_header_index tpl) (baseValues tpl)
    (_map_input_columns headers) headers (bhi_pos tpl) nm j hj hmem huniq hnw
    dataRows 0 i (clearedTpl tpl) hi
  rw [show dataRows.enum = List.enumFrom 0 dataRows from rfl]
  rw [show (2 : Nat) + i = 2 + 0 + i from by omega]
  rw [h, dget_baseValues tpl nm j hmem]
  rfl

/-- C2 (counterexample): converting `gridSmall` against `tplSmall`, whose
template row 2 carries a green fill, a style, a hyperlink and a comment on
its first cell, produces a first data row with entirely default formatting:
the replication copies no style, hyperlink or comment, only values. -/
theorem c2_template_replication_cex :
    (process_pre_to_dgav true tplSmall gridSmall).toOption.map
      (fun p => fmtOf (p.1.getCell 2 1)) = some (none, none, none, none) ∧
    fmtOf (tplSmall.getCell 2 1) = (some "GREEN", some "S2", some "http", some "note") ∧
    ((none, none, none, none) :
        Option String × Option String × Option String × Option String) ≠
      (some "GREEN", some "S2", some "http", some "note") := by
  decide

/-- C2 (amended): each output data row receives the template row's cell
VALUES as defaults — written before the mapped field values, so a template
column not targeted by any mapped input column holds the template's row-2
value in every data row — but the template row's formatting (fill, style,
hyperlink, comment) is NOT copied: every data-row cell carries default
(blank-cell) formatting. -/
theorem c2_template_replication_amended (templateExists : Bool) (tpl : Ws)
    (grid : List (List Cell)) (out : Ws) (msg : String)
    (hok : process_pre_to_dgav templateExists tpl grid = .ok (out, msg))
    (htpl : 1 ≤ tpl.maxRow) :
    ∃ headers dataRows,
      _load_pre_registo_df grid = some (headers, dataRows) ∧
      (∀ r c, 2 ≤ r → fmtOf (out.getCell r c) = fmtOf blankCell) ∧
      (∀ nm j, (nm, j) ∈ _build_header_index tpl →
        (∀ q ∈ INPUT_TO_DGAV_COLMAP,
          dget (_build_header_index tpl) (_norm (some q.1)) = some j →
          dget (_map_input_columns headers) q.1 = none ∨
          dget (_map_input_columns headers) q.1 = some none) →
        ∀ i, i < dataRows.length →
          (out.getCell (2 + i) j).value = (tpl.getCell 2 j).value) := by
  obtain ⟨headers, dataRows, hload, hout, -⟩ :=
    process_ok_inv templateExists tpl grid out msg hok
  refine ⟨headers, dataRows, hload, ?_, ?_⟩
  · intro r c hr
    rw [hout]
    exact fmtOf_convertBody tpl headers dataRows htpl r c hr
  · intro nm j hmem hnw i hi
    rw [hout]
    exact value_convertBody_default tpl headers dataRows htpl nm j hmem hnw i hi

/-- C2 (witness for the amended theorem), on `tplSmall`/`gridSmall`. -/
theorem c2_template_replication_amended_witness :
    ∃ headers dataRows,
      _load_pre_registo_df gridSmall = some (headers, dataRows) ∧
      (∀ r c, 2 ≤ r →
        fmtOf ((convertBody tplSmall (gridSmall.getD 1 [])
          (selectRecordsAfter gridSmall 1)).getCell r c) = fmtOf blankCell) ∧
      (∀ nm j, (nm, j) ∈ _build_header_index tplSmall →
        (∀ q ∈ INPUT_TO_DGAV_COLMAP,
          dget (_build_header_index tplSmall) (_norm (some q.1)) = some j →
          dget (_map_input_columns headers) q.1 = none ∨
          dget (_map_input_columns headers) q.1 = some none) →
        ∀ i, i < dataRows.length →
          ((convertBody tplSmall (gridSmall.getD 1 [])
            (selectRecordsAfter gridSmall 1)).getCell (2 + i) j).value =
          (tplSmall.getCell 2 j).value) :=
  c2_template_replication_amended true tplSmall gridSmall
    (convertBody tplSmall (gridSmall.getD 1 []) (selectRecordsAfter gridSmall 1))
    "Foram processadas 3 amostras." (by rfl) (by decide)

/-! ### C8 infrastructure: character-table facts -/

/-- A successful association-table lookup exhibits a table entry. -/
theorem lookup_mem_cc {l : List (Char × Char)} {a b : Char}
    (h : l.lookup a = some b) : (a, b) ∈ l := by
  induction l with
  | nil => simp [List.lookup] at h
  | cons p t ih =>
    rcases p with ⟨k, v⟩
    simp only [List.lookup] at h
    by_cases hk : a == k
    · rw [hk] at h
      simp only [Option.some.injEq] at h
      subst h
      have : a = k := beq_iff_eq.mp hk
      subst this
      exact List.mem_cons_self _ _
    · rw [Bool.not_eq_true] at hk
      rw [hk] at h
      exact List.mem_cons_of_mem _ (ih h)

theorem accent_val_nodom : ∀ p ∈ accentTable, accentTable.lookup p.2 = none := by decide

theorem lower_val_nodom : ∀ p ∈ lowerTable, lowerTable.lookup p.2 = none := by decide

theorem lower_val_accent_nodom : ∀ p ∈ lowerTable, accentTable.lookup p.2 = none := by decide

theorem deAccent_nodom (c : Char) : accentTable.lookup (deAccent c) = none := by
  unfold deAccent
  cases h : accentTable.lookup c with
  | none => simpa using h
  | some b => simpa using accent_val_nodom _ (lookup_mem_cc h)

theorem pyLower_nodom_lower (c : Char) : lowerTable.lookup (pyLower c) = none := by
  unfold pyLower
  cases h : lowerTable.lookup c with
  | none => simpa using h
  | some b => simpa using lower_val_nodom _ (lookup_mem_cc h)

theorem replUH_nodom_accent {c : Char} (h : accentTable.lookup c = none) :
    accentTable.lookup (replUH c) = none := by
  unfold replUH
  by_cases hc : (c == '_' || c == '-') = true
  · rw [if_pos hc]; decide
  · rw [if_neg hc]; exact h

theorem pyLower_nodom_accent {c : Char} (h : accentTable.lookup c = none) :
    accentTable.lookup (pyLower c) = none := by
  unfold pyLower
  cases hl : lowerTable.lookup c with
  | none => simpa using h
  | some b => simpa using lower_val_accent_nodom _ (lookup_mem_cc hl)

theorem replUH_not_uh (c : Char) : replUH c ≠ '_' ∧ replUH c ≠ '-' := by
  unfold replUH
  by_cases hc : (c == '_' || c == '-') = true
  · rw [if_pos hc]; exact ⟨by decide, by decide⟩
  · rw [if_neg hc]
    simp only [Bool.or_eq_true, beq_iff_eq] at hc
    push_neg at hc
    exact hc

theorem pyLower_not_uh {c : Char} (h : c ≠ '_' ∧ c ≠ '-') :
    pyLower c ≠ '_' ∧ pyLower c ≠ '-' := by
  unfold pyLower
  cases hl : lowerTable.lookup c with
  | none => simpa using h
  | some b =>
    have hv : ∀ p ∈ lowerTable, p.2 ≠ '_' ∧ p.2 ≠ '-' := by decide
    simpa using hv _ (lookup_mem_cc hl)

theorem replNbsp_ne_nbsp (c : Char) : replNbsp c ≠ '\u00A0' := by
  unfold replNbsp
  by_cases hc : (c == '\u00A0') = true
  · rw [if_pos hc]; decide
  · rw [if_neg hc]
    intro he
    exact hc (beq_iff_eq.mpr he)

theorem deAccent_ne_nbsp {c : Char} (h : c ≠ '\u00A0') : deAccent c ≠ '\u00A0' := by
  unfold deAccent
  cases hl : accentTable.lookup c with
  | none => simpa using h
  | some b =>
    have hv : ∀ p ∈ accentTable, p.2 ≠ '\u00A0' := by decide
    simpa using hv _ (lookup_mem_cc hl)

theorem replUH_ne_nbsp {c : Char} (h : c ≠ '\u00A0') : replUH c ≠ '\u00A0' := by
  unfold replUH
  by_cases hc : (c == '_' || c == '-') = true
  · rw [if_pos hc]; decide
  · rw [if_neg hc]; exact h

theorem pyLower_ne_nbsp {c : Char} (h : c ≠ '\u00A0') : pyLower c ≠ '\u00A0' := by
  unfold pyLower
  cases hl : lowerTable.lookup c with
  | none => simpa using h
  | some b =>
    have hv : ∀ p ∈ lowerTable, p.2 ≠ '\u00A0' := by decide
    simpa using hv _ (lookup_mem_cc hl)

theorem replNbsp_eq_self {c : Char} (h : c ≠ '\u00A0') : replNbsp c = c := by
  unfold replNbsp
  rw [if_neg]
  intro hb
  exact h (beq_iff_eq.mp hb)

theorem deAccent_eq_self {c : Char} (h : accentTable.lookup c = none) : deAccent c = c := by
  unfold deAccent; rw [h]; rfl

theorem replUH_eq_self {c : Char} (h : c ≠ '_' ∧ c ≠ '-') : replUH c = c := by
  unfold replUH
  rw [if_neg]
  simp [h.1, h.2]

theorem pyLower_eq_self {c : Char} (h : lowerTable.lookup c = none) : pyLower c = c := by
  unfold pyLower; rw [h]; rfl

/-- The output of `charStage` is a fixed point of all four character stages. -/
theorem charStage_canon (c : Char) :
    replNbsp (charStage c) = charStage c ∧ deAccent (charStage c) = charStage c ∧
    replUH (charStage c) = charStage c ∧ pyLower (charStage c) = charStage c := by
  have h1 : replNbsp c ≠ '\u00A0' := replNbsp_ne_nbsp c
  have h2 := deAccent_ne_nbsp h1
  have h3 := replUH_ne_nbsp h2
  have h4 := pyLower_ne_nbsp h3
  have a1 : accentTable.lookup (deAccent (replNbsp c)) = none := deAccent_nodom _
  have a2 := replUH_nodom_accent a1
  have a3 := pyLower_nodom_accent a2
  have u1 := replUH_not_uh (deAccent (replNbsp c))
  have u2 := pyLower_not_uh u1
  have l1 := pyLower_nodom_lower (replUH (deAccent (replNbsp c)))
  exact ⟨replNbsp_eq_self h4, deAccent_eq_self a3, replUH_eq_self u2, pyLower_eq_self l1⟩

theorem charStage_idem (c : Char) : charStage (charStage c) = charStage c := by
  have h := charStage_canon c
  show pyLower (replUH (deAccent (replNbsp (charStage c)))) = charStage c
  rw [h.1, h.2.1, h.2.2.1, h.2.2.2]

theorem isPyWs_charStage {c : Char} (h : isPyWs c = true) : isPyWs (charStage c) = true := by
  unfold isPyWs at h
  simp only [Bool.or_eq_true, beq_iff_eq] at h
  rcases h with (((((h|h)|h)|h)|h)|h)|h <;> subst h <;> decide

theorem charStage_pyLower (c : Char) : charStage (pyLower c) = charStage c := by
  cases hl : lowerTable.lookup c with
  | none =>
    rw [show pyLower c = c from by unfold pyLower; rw [hl]; rfl]
  | some b =>
    have h1 : ∀ p ∈ lowerTable, charStage p.1 = p.2 ∧ charStage p.2 = p.2 := by decide
    have h2 := h1 _ (lookup_mem_cc hl)
    rw [show pyLower c = b from by unfold pyLower; rw [hl]; rfl]
    have hb : charStage b = b := h2.2
    have hc : charStage c = b := h2.1
    rw [hb, hc]

theorem charStage_deAccent (c : Char) : charStage (deAccent c) = charStage c := by
  cases hl : accentTable.lookup c with
  | none =>
    rw [show deAccent c = c from by unfold deAccent; rw [hl]; rfl]
  | some b =>
    have h1 : ∀ p ∈ accentTable, charStage p.1 = charStage p.2 := by decide
    have h2 := h1 _ (lookup_mem_cc hl)
    rw [show deAccent c = b from by unfold deAccent; rw [hl]; rfl]
    exact h2.symm

/-! ### C8 infrastructure: `split` / `join` / `strip` -/

theorem pyWordsAux_nil (acc : List Char) :
    pyWordsAux [] acc = if acc.isEmpty then [] else [acc.reverse] := rfl

theorem pyWordsAux_cons_ws {c : Char} (h : isPyWs c = true) (l acc : List Char) :
    pyWordsAux (c :: l) acc =
      if acc.isEmpty then pyWordsAux l [] else acc.reverse :: pyWordsAux l [] := by
  simp only [pyWordsAux]
  rw [if_pos h]

theorem pyWordsAux_cons_nws {c : Char} (h : isPyWs c = false) (l acc : List Char) :
    pyWordsAux (c :: l) acc = pyWordsAux l (c :: acc) := by
  simp only [pyWordsAux]
  rw [if_neg (by simp [h])]

/-- Every word produced by `split` is nonempty and whitespace-free. -/
theorem pyWordsAux_spec : ∀ (l acc : List Char), (∀ c ∈ acc, isPyWs c = false) →
    ∀ w ∈ pyWordsAux l acc, w ≠ [] ∧ ∀ c ∈ w, isPyWs c = false := by
  intro l
  induction l with
  | nil =>
    intro acc hacc w hw
    rw [pyWordsAux_nil] at hw
    by_cases he : acc.isEmpty
    · rw [if_pos he] at hw; simp at hw
    · rw [if_neg he] at hw
      simp only [List.mem_singleton] at hw
      subst hw
      refine ⟨?_, ?_⟩
      · simp only [ne_eq, List.reverse_eq_nil_iff]
        intro hnil
        exact he (by simp [hnil])
      · intro c hc; exact hacc c (List.mem_reverse.mp hc)
  | cons a t ih =>
    intro acc hacc w hw
    by_cases ha : isPyWs a = true
    · rw [pyWordsAux_cons_ws ha] at hw
      by_cases he : acc.isEmpty
      · rw [if_pos he] at hw
        exact ih [] (by simp) w hw
      · rw [if_neg he] at hw
        rcases List.mem_cons.mp hw with hw | hw
        · subst hw
          refine ⟨?_, ?_⟩
          · simp only [ne_eq, List.reverse_eq_nil_iff]
            intro hnil
            exact he (by simp [hnil])
          · intro c hc; exact hacc c (List.mem_reverse.mp hc)
        · exact ih [] (by simp) w hw
    · have ha' : isPyWs a = false := by simpa using ha
      rw [pyWordsAux_cons_nws ha'] at hw
      refine ih (a :: acc) ?_ w hw
      intro c hc
      rcases List.mem_cons.mp hc with h | h
      · subst h; exact ha'
      · exact hacc c h

theorem pyWords_spec {l : List Char} : ∀ w ∈ pyWords l, w ≠ [] ∧ ∀ c ∈ w, isPyWs c = false :=
  pyWordsAux_spec l [] (by simp)

/-- Characters of `split`'s words come from the input (or the accumulator). -/
theorem pyWordsAux_mem : ∀ (l acc w : List Char) (c : Char),
    w ∈ pyWordsAux l acc → c ∈ w → c ∈ l ∨ c ∈ acc := by
  intro l
  induction l with
  | nil =>
    intro acc w c hw hc
    rw [pyWordsAux_nil] at hw
    by_cases he : acc.isEmpty
    · rw [if_pos he] at hw; simp at hw
    · rw [if_neg he] at hw
      simp only [List.mem_singleton] at hw
      subst hw
      exact Or.inr (List.mem_reverse.mp hc)
  | cons a t ih =>
    intro acc w c hw hc
    by_cases ha : isPyWs a = true
    · rw [pyWordsAux_cons_ws ha] at hw
      by_cases he : acc.isEmpty
      · rw [if_pos he] at hw
        rcases ih [] w c hw hc with h | h
        · exact Or.inl (List.mem_cons_of_mem _ h)
        · simp at h
      · rw [if_neg he] at hw
        rcases List.mem_cons.mp hw with hw | hw
        · subst hw; exact Or.inr (List.mem_reverse.mp hc)
        · rcases ih [] w c hw hc with h | h
          · exact Or.inl (List.mem_cons_of_mem _ h)
          · simp at h
    · have ha' : isPyWs a = false := by simpa using ha
      rw [pyWordsAux_cons_nws ha'] at hw
      rcases ih (a :: acc) w c hw hc with h | h
      · exact Or.inl (List.mem_cons_of_mem _ h)
      · rcases List.mem_cons.mp h with h | h
        · subst h; exact Or.inl (List.mem_cons_self _ _)
        · exact Or.inr h

theorem pyWords_mem {l w : List Char} {c : Char} (hw : w ∈ pyWords l) (hc : c ∈ w) : c ∈ l := by
  rcases pyWordsAux_mem l [] w c hw hc with h | h
  · exact h
  · simp at h

/-- Reading a whitespace-free block just extends the accumulator. -/
theorem pyWordsAux_word : ∀ (w : List Char), (∀ c ∈ w, isPyWs c = false) →
    ∀ (s acc : List Char), pyWordsAux (w ++ s) acc = pyWordsAux s (w.reverse ++ acc) := by
  intro w
  induction w with
  | nil => intro _ s acc; simp
  | cons a t ih =>
    intro hw s acc
    have ha : isPyWs a = false := hw a (List.mem_cons_self _ _)
    rw [List.cons_append, pyWordsAux_cons_nws ha,
      ih (fun c hc => hw c (List.mem_cons_of_mem _ hc)) s (a :: acc)]
    congr 1
    simp

/-- At a whitespace boundary (or the end), the accumulator is flushed. -/
theorem pyWordsAux_flush : ∀ (s : List Char), (∀ c t, s = c :: t → isPyWs c = true) →
    ∀ acc, pyWordsAux s acc = (if acc.isEmpty then [] else [acc.reverse]) ++ pyWords s := by
  intro s hs acc
  cases s with
  | nil =>
    rw [pyWordsAux_nil, pyWords, pyWordsAux_nil]
    by_cases he : acc.isEmpty
    · rw [if_pos he]; simp
    · rw [if_neg he]; simp
  | cons c t =>
    have hc : isPyWs c = true := hs c t rfl
    rw [pyWordsAux_cons_ws hc, pyWords, pyWordsAux_cons_ws hc]
    by_cases he : acc.isEmpty
    · rw [if_pos he, if_pos he]; simp
    · rw [if_neg he, if_neg he]; simp

/-- `split` of `l₁ ++ s` depends on `s` only through `pyWords s`, provided
`s` starts with whitespace (or is empty). -/
theorem pyWordsAux_congr : ∀ (l₁ s s' acc : List Char),
    pyWords s = pyWords s' →
    (∀ c t, s = c :: t → isPyWs c = true) →
    (∀ c t, s' = c :: t → isPyWs c = true) →
    pyWordsAux (l₁ ++ s) acc = pyWordsAux (l₁ ++ s') acc := by
  intro l₁
  induction l₁ with
  | nil =>
    intro s s' acc hpw hs hs'
    rw [List.nil_append, List.nil_append, pyWordsAux_flush s hs acc,
      pyWordsAux_flush s' hs' acc, hpw]
  | cons a t ih =>
    intro s s' acc hpw hs hs'
    rw [List.cons_append, List.cons_append]
    by_cases ha : isPyWs a = true
    · rw [pyWordsAux_cons_ws ha, pyWordsAux_cons_ws ha]
      by_cases he : acc.isEmpty
      · rw [if_pos he, if_pos he, ih s s' [] hpw hs hs']
      · rw [if_neg he, if_neg he, ih s s' [] hpw hs hs']
    · have ha' : isPyWs a = false := by simpa using ha
      rw [pyWordsAux_cons_nws ha', pyWordsAux_cons_nws ha', ih s s' (a :: acc) hpw hs hs']

theorem joinWords_cons2 (w w' : List Char) (ws : List (List Char)) :
    joinWords (w :: w' :: ws) = w ++ ' ' :: joinWords (w' :: ws) := rfl

/-- Joining a list whose first word starts with `a` yields a list starting
with `a`. -/
theorem joinWords_head (a : Char) (t : List Char) (ws : List (List Char)) :
    ∃ rest, joinWords ((a :: t) :: ws) = a :: rest := by
  cases ws with
  | nil => exact ⟨t, rfl⟩
  | cons w' ws' => exact ⟨t ++ ' ' :: joinWords (w' :: ws'), rfl⟩

theorem mem_joinWords : ∀ {W : List (List Char)} {c : Char},
    c ∈ joinWords W → c = ' ' ∨ ∃ w ∈ W, c ∈ w := by
  intro W
  induction W with
  | nil => intro c h; simp [joinWords] at h
  | cons w ws ih =>
    intro c h
    cases ws with
    | nil =>
      refine Or.inr ⟨w, List.mem_cons_self _ _, ?_⟩
      simpa [joinWords] using h
    | cons w' ws' =>
      rw [joinWords_cons2] at h
      rcases List.mem_append.mp h with h | h
      · exact Or.inr ⟨w, List.mem_cons_self _ _, h⟩
      · rcases List.mem_cons.mp h with h | h
        · exact Or.inl h
        · rcases ih h with h | ⟨u, hu, hc⟩
          · exact Or.inl h
          · exact Or.inr ⟨u, List.mem_cons_of_mem _ hu, hc⟩

/-- `split (join W) = W` for nonempty whitespace-free words `W`. -/
theorem pyWords_joinWords : ∀ (W : List (List Char)),
    (∀ w ∈ W, w ≠ [] ∧ ∀ c ∈ w, isPyWs c = false) →
    pyWords (joinWords W) = W := by
  intro W
  induction W with
  | nil => intro _; rfl
  | cons w ws ih =>
    intro hW
    have hw := hW w (List.mem_cons_self _ _)
    obtain ⟨a, t, rfl⟩ := List.exists_cons_of_ne_nil hw.1
    cases ws with
    | nil =>
      show pyWords (joinWords [a :: t]) = [a :: t]
      rw [show joinWords [a :: t] = a :: t from rfl]
      unfold pyWords
      rw [show a :: t = (a :: t) ++ [] from by simp, pyWordsAux_word (a :: t) hw.2 [] [],
        pyWordsAux_nil]
      simp
    | cons w' ws' =>
      rw [joinWords_cons2]
      unfold pyWords
      rw [pyWordsAux_word (a :: t) hw.2 (' ' :: joinWords (w' :: ws')) [],
        pyWordsAux_cons_ws (by decide)]
      rw [if_neg (by simp)]
      have hrec := ih (fun u hu => hW u (List.mem_cons_of_mem _ hu))
      unfold pyWords at hrec
      rw [hrec]
      simp

/-- `join` of nonempty whitespace-free words needs no leading strip. -/
theorem dropWhile_joinWords (W : List (List Char))
    (hW : ∀ w ∈ W, w ≠ [] ∧ ∀ c ∈ w, isPyWs c = false) :
    (joinWords W).dropWhile isPyWs = joinWords W := by
  cases W with
  | nil => rfl
  | cons w ws =>
    have hw := hW w (List.mem_cons_self _ _)
    obtain ⟨a, t, rfl⟩ := List.exists_cons_of_ne_nil hw.1
    have ha : isPyWs a = false := hw.2 a (List.mem_cons_self _ _)
    obtain ⟨rest, hrest⟩ := joinWords_head a t ws
    rw [hrest, List.dropWhile_cons_of_neg (by simp [ha])]

/-- `join` of nonempty whitespace-free words ends in a non-whitespace
character (unless empty). -/
theorem reverse_joinWords_head : ∀ (W : List (List Char)),
    (∀ w ∈ W, w ≠ [] ∧ ∀ c ∈ w, isPyWs c = false) →
    (joinWords W).reverse = [] ∨
      ∃ c t, (joinWords W).reverse = c :: t ∧ isPyWs c = false := by
  intro W
  induction W with
  | nil => intro _; exact Or.inl rfl
  | cons w ws ih =>
    intro hW
    have hw := hW w (List.mem_cons_self _ _)
    cases ws with
    | nil =>
      refine Or.inr ?_
      cases hrev : w.reverse with
      | nil => exact absurd (List.reverse_eq_nil_iff.mp hrev) hw.1
      | cons c t =>
        refine ⟨c, t, by simpa [joinWords] using hrev, ?_⟩
        have hc : c ∈ w := by
          rw [← List.mem_reverse, hrev]
          exact List.mem_cons_self _ _
        exact hw.2 c hc
    | cons w' ws' =>
      refine Or.inr ?_
      rcases ih (fun u hu => hW u (List.mem_cons_of_mem _ hu)) with h | ⟨c, t, hct, hcw⟩
      · exfalso
        have hw' := hW w' (List.mem_cons_of_mem _ (List.mem_cons_self _ _))
        obtain ⟨a', t', rfl⟩ := List.exists_cons_of_ne_nil hw'.1
        obtain ⟨rest, hrest⟩ := joinWords_head a' t' ws'
        rw [hrest] at h
        simp at h
      · refine ⟨c, t ++ ' ' :: w.reverse, ?_, hcw⟩
        rw [joinWords_cons2, List.reverse_append, List.reverse_cons, hct]
        simp

/-- `strip` is the identity on `join` of nonempty whitespace-free words. -/
theorem pyStrip_joinWords (W : List (List Char))
    (hW : ∀ w ∈ W, w ≠ [] ∧ ∀ c ∈ w, isPyWs c = false) :
    pyStrip (joinWords W) = joinWords W := by
  unfold pyStrip
  rw [dropWhile_joinWords W hW]
  rcases reverse_joinWords_head W hW with h | ⟨c, t, h, hc⟩
  · rw [h]
    rw [List.reverse_eq_nil_iff.mp h]
    rfl
  · rw [h, List.dropWhile_cons_of_neg (by simp [hc]), ← h, List.reverse_reverse]

theorem map_fix : ∀ {l : List Char} {f : Char → Char}, (∀ c ∈ l, f c = c) → l.map f = l := by
  intro l f h
  induction l with
  | nil => rfl
  | cons a t ih =>
    simp only [List.map_cons]
    rw [h a (List.mem_cons_self a t), ih (fun c hc => h c (List.mem_cons_of_mem a hc))]

theorem mem_dropWhile {p : Char → Bool} : ∀ {l : List Char} {c : Char},
    c ∈ l.dropWhile p → c ∈ l := by
  intro l
  induction l with
  | nil => intro c h; simp at h
  | cons a t ih =>
    intro c h
    by_cases ha : p a = true
    · rw [List.dropWhile_cons_of_pos ha] at h
      exact List.mem_cons_of_mem _ (ih h)
    · rw [List.dropWhile_cons_of_neg (by simp [ha])] at h
      exact h

/-- `_norm` in closed form: map the four character stages, split, re-join. -/
theorem norm_words (s : String) :
    _norm (some s) = (joinWords (pyWords (s.data.map charStage))).asString := by
  show (pyStrip (joinWords (pyWords
      ((((s.data.map replNbsp).map deAccent).map replUH).map pyLower)))).asString = _
  rw [List.map_map, List.map_map, List.map_map]
  rw [show s.data.map (((pyLower ∘ replUH) ∘ deAccent) ∘ replNbsp) = s.data.map charStage from rfl]
  rw [pyStrip_joinWords _ pyWords_spec]

/-- `_norm` is idempotent. -/
theorem norm_idem (s : String) : _norm (some (_norm (some s))) = _norm (some s) := by
  rw [norm_words s, norm_words ((joinWords (pyWords (s.data.map charStage))).asString)]
  rw [show ((joinWords (pyWords (s.data.map charStage))).asString).data
      = joinWords (pyWords (s.data.map charStage)) from rfl]
  have hfix : ∀ c ∈ joinWords (pyWords (s.data.map charStage)), charStage c = c := by
    intro c hc
    rcases mem_joinWords hc with h | ⟨w, hw, hcw⟩
    · subst h; decide
    · have hcM : c ∈ s.data.map charStage := pyWords_mem hw hcw
      rcases List.mem_map.mp hcM with ⟨d, _, rfl⟩
      exact charStage_idem d
  rw [map_fix hfix, pyWords_joinWords _ pyWords_spec]

/-- One label edit does not change the split of the staged characters. -/
theorem norm_step {a b : List Char} (h : LabelStep a b) :
    pyWords (a.map charStage) = pyWords (b.map charStage) := by
  cases h with
  | lowerChar l₁ c l₂ =>
    simp only [List.map_append, List.map_cons]
    rw [charStage_pyLower]
  | accentChar l₁ c l₂ =>
    simp only [List.map_append, List.map_cons]
    rw [charStage_deAccent]
  | underscore l₁ l₂ =>
    simp only [List.map_append, List.map_cons]
    rw [show charStage '_' = ' ' from by decide]
    rw [show charStage ' ' = ' ' from by decide]
  | hyphen l₁ l₂ =>
    simp only [List.map_append, List.map_cons]
    rw [show charStage '-' = ' ' from by decide]
    rw [show charStage ' ' = ' ' from by decide]
  | wsChar l₁ c l₂ hc =>
    simp only [List.map_append, List.map_cons]
    have hwc : isPyWs (charStage c) = true := isPyWs_charStage hc
    rw [show charStage ' ' = ' ' from by decide]
    unfold pyWords
    apply pyWordsAux_congr
    · show pyWords (charStage c :: l₂.map charStage) = pyWords (' ' :: l₂.map charStage)
      unfold pyWords
      rw [pyWordsAux_cons_ws hwc, pyWordsAux_cons_ws (by decide)]
    · intro x y hxy
      cases hxy
      exact hwc
    · intro x y hxy
      cases hxy
      decide
  | wsDup l₁ c l₂ hc =>
    simp only [List.map_append, List.map_cons]
    have hwc : isPyWs (charStage c) = true := isPyWs_charStage hc
    unfold pyWords
    apply pyWordsAux_congr
    · show pyWords (charStage c :: l₂.map charStage)
          = pyWords (charStage c :: charStage c :: l₂.map charStage)
      unfold pyWords
      simp [pyWordsAux_cons_ws hwc]
    · intro x y hxy
      cases hxy
      exact hwc
    · intro x y hxy
      cases hxy
      exact hwc
  | wsLead c l hc =>
    simp only [List.map_cons]
    have hwc : isPyWs (charStage c) = true := isPyWs_charStage hc
    show pyWords _ = pyWords _
    unfold pyWords
    rw [pyWordsAux_cons_ws hwc]
    simp
  | wsTrail u c hc =>
    simp only [List.map_append, List.map_cons, List.map_nil]
    have hwc : isPyWs (charStage c) = true := isPyWs_charStage hc
    unfold pyWords
    have h0 : pyWordsAux (List.map charStage a ++ []) []
        = pyWordsAux (List.map charStage a ++ [charStage c]) [] := by
      apply pyWordsAux_congr
      · show pyWords [] = pyWords [charStage c]
        unfold pyWords
        rw [pyWordsAux_cons_ws hwc]
        simp [pyWordsAux_nil]
      · intro x y hxy
        exact absurd hxy (by simp)
      · intro x y hxy
        cases hxy
        exact hwc
    simpa using h0

/-- Labels related by `LabelVar` have the same staged split. -/
theorem norm_var {a b : List Char} (h : LabelVar a b) :
    pyWords (a.map charStage) = pyWords (b.map charStage) := by
  induction h with
  | refl l => rfl
  | symm _ ih => exact ih.symm
  | trans _ _ ih1 ih2 => exact ih1.trans ih2
  | step hs => exact norm_step hs

/-- C8: `_norm` is total (`None` maps to `""`), idempotent, and constant on
labels that differ only by case, accents, underscores/hyphens versus
spaces, or extra whitespace (`LabelVar`). -/
theorem c8_label_normalization :
    (_norm none = "") ∧
    (∀ s : String, _norm (some (_norm (some s))) = _norm (some s)) ∧
    (∀ a b : String, LabelVar a.data b.data → _norm (some a) = _norm (some b)) := by
  refine ⟨rfl, norm_idem, ?_⟩
  intro a b h
  rw [norm_words a, norm_words b, norm_var h]

theorem c8_label_normalization_witness :
    LabelVar ("Código_Amostra").data ("codigo amostra").data ∧
    _norm (some "Código_Amostra") = _norm (some "codigo amostra") := by
  have e1 : ("Código_Amostra").data
      = ['C','ó','d','i','g','o','_','A','m','o','s','t','r','a'] := by decide
  have e2 : ("codigo amostra").data
      = ['c','o','d','i','g','o',' ','a','m','o','s','t','r','a'] := by decide
  have s1 : LabelStep ['C','ó','d','i','g','o','_','A','m','o','s','t','r','a']
      ['C','o','d','i','g','o','_','A','m','o','s','t','r','a'] :=
    LabelStep.accentChar ['C'] 'ó' ['d','i','g','o','_','A','m','o','s','t','r','a']
  have s2 : LabelStep ['C','o','d','i','g','o','_','A','m','o','s','t','r','a']
      ['c','o','d','i','g','o','_','A','m','o','s','t','r','a'] :=
    LabelStep.lowerChar [] 'C' ['o','d','i','g','o','_','A','m','o','s','t','r','a']
  have s3 : LabelStep ['c','o','d','i','g','o','_','A','m','o','s','t','r','a']
      ['c','o','d','i','g','o',' ','A','m','o','s','t','r','a'] :=
    LabelStep.underscore ['c','o','d','i','g','o'] ['A','m','o','s','t','r','a']
  have s4 : LabelStep ['c','o','d','i','g','o',' ','A','m','o','s','t','r','a']
      ['c','o','d','i','g','o',' ','a','m','o','s','t','r','a'] :=
    LabelStep.lowerChar ['c','o','d','i','g','o',' '] 'A' ['m','o','s','t','r','a']
  have hv : LabelVar ("Código_Amostra").data ("codigo amostra").data := by
    rw [e1, e2]
    exact LabelVar.trans (LabelVar.step s1)
      (LabelVar.trans (LabelVar.step s2)
        (LabelVar.trans (LabelVar.step s3) (LabelVar.step s4)))
  exact ⟨hv, c8_label_normalization.2.2 _ _ hv⟩

end Xylella
